import Mathlib

/-!
Verification of `sqlmap_bulk_host.py` against its specification.

Text is modelled as `List Char`.  Python's `str.lower`, the `(?i)` regex
flag and the `\s`, `\d` character classes are modelled over the ASCII
range, which covers all character data the program's patterns mention.
-/

set_option autoImplicit false

namespace SBH

/-- Convert a Lean string literal to the `List Char` text model. -/
def strL (s : String) : List Char := s.data

/-- ASCII lowering, the model of Python `str.lower` on the characters that
matter to the program's patterns. -/
def asciiLower (c : Char) : Char :=
  if 'A' ≤ c ∧ c ≤ 'Z' then Char.ofNat (c.toNat + 32) else c

/-- Model of Python `str.lower` applied to a whole text. -/
def lowerStr (s : List Char) : List Char := s.map asciiLower

/-- ASCII whitespace, the model of Python's `\s` class and of the character
set removed by `str.strip`. -/
def isSpace (c : Char) : Bool :=
  c = ' ' || c = '\t' || c = '\n' || c = '\r' || c = '\x0b' || c = '\x0c'

/-- Characters matched by the version-capturing class `[\d.]`. -/
def isVerChar (c : Char) : Bool := c.isDigit || c = '.'

/-- Test whether `p` is an initial segment of `s` (Boolean). -/
def startsWithL : List Char → List Char → Bool
  | [], _ => true
  | _ :: _, [] => false
  | p :: ps, c :: cs => p = c && startsWithL ps cs

/-- Model of Python's substring test `pat in hay` (also of `re.search` for a
pattern consisting of literal characters only). -/
def containsSub (hay pat : List Char) : Bool :=
  startsWithL pat hay ||
    match hay with
    | [] => false
    | _ :: t => containsSub t pat

/-- Match `lit` at the head of `hay`; on success return the rest. -/
def litStep (lit hay : List Char) : Option (List Char) :=
  if startsWithL lit hay then some (hay.drop lit.length) else none

/-- Seek the literal `l` in `hay`, skipping characters that satisfy the gap
predicate `g`; when `l` matches, the continuation `k` decides whether the
rest of the pattern matches the remaining text. -/
def gapSeek (g : Char → Bool) (l : List Char) (k : List Char → Bool) : List Char → Bool
  | [] =>
      match litStep l [] with
      | some r => k r
      | none => false
  | c :: cs =>
      (match litStep l (c :: cs) with
       | some r => k r
       | none => false)
      || (g c && gapSeek g l k cs)

/-- Match a sequence of literals separated by gaps whose characters satisfy
`g`, starting with a `g`-gap, at the head of `hay`.  This is the matching
core for regex patterns of the shape `lit₁ SEP lit₂ SEP …` where `SEP` is
`.*` (then `g` accepts every non-newline character) or `\s*` (then `g`
accepts whitespace).  Only existence of a match is modelled, which is what
`re.search`'s truthiness reports. -/
def gapMatch (g : Char → Bool) : List (List Char) → List Char → Bool
  | [], _ => true
  | l :: ls, hay => gapSeek g l (gapMatch g ls) hay

/-- Model of `re.search` for a pattern `lit₁ SEP lit₂ SEP …`: some position
of `hay` starts a `gapMatch` (the text before that position is arbitrary). -/
def reSearch (g : Char → Bool) (ls : List (List Char)) : List Char → Bool
  | [] => gapMatch g ls []
  | c :: cs => gapMatch g ls (c :: cs) || reSearch g ls cs

/-- Gap predicate for `.*`: any character except a newline. -/
def neNL (c : Char) : Bool := !(c = '\n')

/-- Result record of `analyze_sqlmap_output`, mirroring the Python dict. -/
structure AnalysisResult where
  injection_detected : Bool
  db_fingerprint : Bool
  db_type : Option (List Char)
  db_version : Option (List Char)
deriving DecidableEq, Repr

/-- Injection indicators of `analyze_sqlmap_output` (lines 140-151): the OR
of the four `injection_indicators` regexes searched over the lowered
output.  The Python loop breaks at the first hit, which is equivalent. -/
def injectionHit (ol : List Char) : Bool :=
  reSearch neNL [strL "parameter", strL "is", strL "injectable"] ol
  || containsSub ol (strL "is vulnerable")
  || reSearch neNL [strL "payload:", strL "sql"] ol
  || reSearch neNL [strL "back-end dbms:", strL "(injectable)"] ol

/-- Patterns of `db_patterns['mysql']`. -/
def mysqlHit (ol : List Char) : Bool :=
  reSearch isSpace [strL "back-end dbms:", strL "mysql"] ol
  || reSearch isSpace [strL "database management system:", strL "mysql"] ol
  || containsSub ol (strL "the back-end dbms is mysql")

/-- Patterns of `db_patterns['postgresql']`. -/
def postgresqlHit (ol : List Char) : Bool :=
  reSearch isSpace [strL "back-end dbms:", strL "postgresql"] ol
  || reSearch isSpace [strL "database management system:", strL "postgresql"] ol
  || containsSub ol (strL "the back-end dbms is postgresql")

/-- Patterns of `db_patterns['mssql']`. -/
def mssqlHit (ol : List Char) : Bool :=
  reSearch isSpace [strL "back-end dbms:", strL "microsoft sql server"] ol
  || reSearch isSpace [strL "back-end dbms:", strL "mssql"] ol
  || reSearch isSpace [strL "database management system:", strL "microsoft sql server"] ol
  || containsSub ol (strL "the back-end dbms is microsoft sql server")

/-- Patterns of `db_patterns['oracle']`. -/
def oracleHit (ol : List Char) : Bool :=
  reSearch isSpace [strL "back-end dbms:", strL "oracle"] ol
  || reSearch isSpace [strL "database management system:", strL "oracle"] ol
  || containsSub ol (strL "the back-end dbms is oracle")

/-- Patterns of `db_patterns['sqlite']`. -/
def sqliteHit (ol : List Char) : Bool :=
  reSearch isSpace [strL "back-end dbms:", strL "sqlite"] ol
  || reSearch isSpace [strL "database management system:", strL "sqlite"] ol
  || containsSub ol (strL "the back-end dbms is sqlite")

/-- Patterns of `db_patterns['access']`. -/
def accessHit (ol : List Char) : Bool :=
  reSearch isSpace [strL "back-end dbms:", strL "microsoft access"] ol
  || reSearch isSpace [strL "database management system:", strL "microsoft access"] ol
  || containsSub ol (strL "the back-end dbms is microsoft access")

/-- First matching database type, in the insertion order of `db_patterns`
(first match wins, lines 190-213). -/
def dbDetect (ol : List Char) : Option (List Char) :=
  if mysqlHit ol then some (strL "mysql")
  else if postgresqlHit ol then some (strL "postgresql")
  else if mssqlHit ol then some (strL "mssql")
  else if oracleHit ol then some (strL "oracle")
  else if sqliteHit ol then some (strL "sqlite")
  else if accessHit ol then some (strL "access")
  else none

/-- Attempt a version pattern `pre` + `\s*([\d.]+)` exactly at the head of
`hay`: after the literal, greedy whitespace, then at least one `[\d.]`
character; the captured group is the maximal `[\d.]` run. -/
def verHere (pre hay : List Char) : Option (List Char) :=
  if startsWithL pre hay then
    let r := (hay.drop pre.length).dropWhile isSpace
    let d := r.takeWhile isVerChar
    if d.isEmpty then none else some d
  else none

/-- Leftmost `re.search` of a version pattern `pre` + `\s*([\d.]+)`,
returning the captured group. -/
def verAfter (pre : List Char) : List Char → Option (List Char)
  | [] => none
  | c :: cs =>
      match verHere pre (c :: cs) with
      | some v => some v
      | none => verAfter pre cs

/-- Version extraction (lines 199-209): the three `version_patterns` tried
in order, first successful extraction wins. -/
def versionExtract (ol : List Char) : Option (List Char) :=
  match verAfter (strL "the back-end dbms version is") ol with
  | some v => some v
  | none =>
      match verAfter (strL "dbms version:") ol with
      | some v => some v
      | none => verAfter (strL "version:") ol

/-- Embedding of `analyze_sqlmap_output` (lines 120-215): lower the output,
compute the injection flag from the indicator patterns, find the first
matching database type, and extract a version only when a type matched. -/
def analyze_sqlmap_output (output : List Char) : AnalysisResult :=
  let ol := lowerStr output
  let inj := injectionHit ol
  match dbDetect ol with
  | some name => ⟨inj, true, some name, versionExtract ol⟩
  | none => ⟨inj, false, none, none⟩

/-! ### The request rewriter `replace_host_in_request` (lines 24-66) -/

/-- Model of Python `content.split('\n')`: the pieces between newlines, in
order; always at least one piece, pieces contain no newline. -/
def splitNL : List Char → List (List Char)
  | [] => [[]]
  | c :: cs =>
      match splitNL cs with
      | [] => [[c]]
      | h :: t => if c = '\n' then [] :: h :: t else (c :: h) :: t

/-- Model of Python `'\n'.join(lines)`. -/
def joinNL : List (List Char) → List Char
  | [] => []
  | [l] => l
  | l :: l2 :: ls => l ++ '\n' :: joinNL (l2 :: ls)

/-- Model of Python `str.strip` (ASCII whitespace). -/
def stripL (l : List Char) : List Char :=
  ((l.dropWhile isSpace).reverse.dropWhile isSpace).reverse

/-- The placeholder token `{{Hostname}}` (line 36), written with escaped
braces. -/
def phText : List Char := strL "\x7b\x7bHostname\x7d\x7d"

/-- Model of Python `request_content.replace('{{Hostname}}', new_host)`
(line 37): scan left to right, replace each non-overlapping occurrence,
never rescanning the replacement text.  When the twelve placeholder
characters match, the scan continues after them (the inner match peels
the remaining eleven; its `[]`-shaped branches are unreachable because a
successful prefix match guarantees at least twelve characters). -/
def phReplace (new_host : List Char) : List Char → List Char
  | [] => []
  | c :: cs =>
      if startsWithL phText (c :: cs) then
        match cs with
        | _ :: _ :: _ :: _ :: _ :: _ :: _ :: _ :: _ :: _ :: _ :: rest =>
            new_host ++ phReplace new_host rest
        | _ => []
      else c :: phReplace new_host cs

/-- Case-insensitive test of the five pattern characters `Host:` (the
`(?i)` flag of line 42, ASCII model). -/
def host5 (c1 c2 c3 c4 c5 : Char) : Bool :=
  asciiLower c1 = 'h' && asciiLower c2 = 'o' && asciiLower c3 = 's' &&
  asciiLower c4 = 't' && c5 = ':'

/-- Whether a line starts, case-insensitively, with `Host:`. -/
def hostMatch5 : List Char → Bool
  | c1 :: c2 :: c3 :: c4 :: c5 :: _ => host5 c1 c2 c3 c4 c5
  | _ => false

/-- Scanner states for the multiline `re.sub`: `start` is a position where
`^` can match, `mid` is inside a line that cannot match any more, `inWs` is
inside the greedy `\s*` run of a match (its characters belong to
`group(1)` and are kept), `inRest` is inside the greedy `.*` run of a
match (its characters are consumed and replaced). -/
inductive HState where
  | start
  | mid
  | inWs
  | inRest
deriving DecidableEq, Repr

/-- Model of `re.sub(r'(?i)^(Host:\s*).*$', repl, content, flags=re.MULTILINE)`
with `repl` returning `group(1) + new_host` (lines 42-47).  At a line start
the five pattern characters are tried case-insensitively; on a hit the
`\s*` run keeps its characters (they are part of `group(1)`) and —
faithfully to Python, where `\s` also matches a newline — may run across
line boundaries when only whitespace remains on the line; the first
non-whitespace character ends the run, the replacement `T` is emitted, and
the remainder of that line (the `.*` part of the match) is dropped.
Scanning resumes directly after each match, as `re.sub` does. -/
def hostScan (T : List Char) : HState → List Char → List Char
  | HState.inWs, [] => T
  | _, [] => []
  | HState.start, c1 :: c2 :: c3 :: c4 :: c5 :: rest =>
      if host5 c1 c2 c3 c4 c5 then
        c1 :: c2 :: c3 :: c4 :: c5 :: hostScan T HState.inWs rest
      else
        c1 :: hostScan T (if c1 = '\n' then HState.start else HState.mid)
          (c2 :: c3 :: c4 :: c5 :: rest)
  | HState.start, c :: cs =>
      c :: hostScan T (if c = '\n' then HState.start else HState.mid) cs
  | HState.mid, c :: cs =>
      c :: hostScan T (if c = '\n' then HState.start else HState.mid) cs
  | HState.inWs, c :: cs =>
      if isSpace c then c :: hostScan T HState.inWs cs
      else T ++ hostScan T HState.inRest cs
  | HState.inRest, c :: cs =>
      if c = '\n' then '\n' :: hostScan T HState.start cs
      else hostScan T HState.inRest cs

/-- The per-line effect of the substitution on lines whose `Host:` value is
not pure whitespace: the matched prefix (label as originally cased plus the
whitespace run) is kept and the value is replaced by `T`. -/
def subLine (T : List Char) (l : List Char) : List Char :=
  match l with
  | c1 :: c2 :: c3 :: c4 :: c5 :: rest =>
      if host5 c1 c2 c3 c4 c5 then
        c1 :: c2 :: c3 :: c4 :: c5 :: (rest.takeWhile isSpace ++ T)
      else l
  | _ => l

/-- Loop body of the insertion-point search (lines 54-61): from index 1,
stop at the first line that contains a colon and does not start (after
stripping) with `HTTP/`, or at the first blank line; default 1. -/
def fipGo (i : Nat) : List (List Char) → Nat
  | [] => 1
  | l :: ls =>
      if l.contains ':' && !(startsWithL (strL "HTTP/") (stripL l)) then i
      else if stripL l = [] then i
      else fipGo (i + 1) ls

/-- Insertion-point computation of `replace_host_in_request` (lines 54-61). -/
def findInsertPos (lines : List (List Char)) : Nat := fipGo 1 (lines.drop 1)

/-- Model of Python `list.insert(n, x)` (clamping at the end). -/
def insertAt (n : Nat) (x : List Char) : List (List Char) → List (List Char)
  | ls =>
      match n, ls with
      | 0, ls => x :: ls
      | _ + 1, [] => [x]
      | m + 1, l :: ls => l :: insertAt m x ls

/-- The synthesized header line `f'Host: {new_host}'` (line 63). -/
def hostHeaderLine (new_host : List Char) : List Char := strL "Host: " ++ new_host

/-- Embedding of `replace_host_in_request` (lines 24-66): placeholder
substitution first; otherwise the multiline regex substitution; if that
left the content unchanged, insert a synthesized `Host:` header at the
computed position. -/
def replace_host_in_request (request_content new_host : List Char) : List Char :=
  if containsSub request_content phText then phReplace new_host request_content
  else
    let modified := hostScan new_host HState.start request_content
    if modified = request_content then
      let lines := splitNL request_content
      if 0 < lines.length then
        joinNL (insertAt (findInsertPos lines) (hostHeaderLine new_host) lines)
      else modified
    else modified

/-- Specification-side description of the insertion point, written from the
spec's words: scan from the second line onward for the first line that
either contains a colon and is not the protocol/version marker, or is
blank; insert immediately before it (a one-line template appends the
header as the second line; with no qualifying line the position defaults
to 1, right after the request line). -/
def lineQualifies (l : List Char) : Bool :=
  (l.contains ':' && !(startsWithL (strL "HTTP/") (stripL l))) || stripL l = []

/-- Spec-side insertion position (comparison target for `findInsertPos`). -/
def specInsertPos (lines : List (List Char)) : Nat :=
  match (lines.drop 1).findIdx? lineQualifies with
  | some j => j + 1
  | none => 1

/-! ### The bulk orchestrator `process_bulk_scan` (lines 271-404) and the
exit-code computation of `main` (lines 543-548).

The orchestrator's effects are made explicit: the temporary-file system is
a list of path identifiers (iteration indices stand in for the unique
temporary names), and the behaviour of the fallible or external steps of
each iteration — the defensive `except Exception` around the rewrite, the
temporary-file creation, and the external `run_sqlmap` call — is an
environment parameter.  `keyboard` models a `KeyboardInterrupt` raised
inside the corresponding step (Python's `KeyboardInterrupt` is not caught
by `except Exception`). -/

/-- Aggregate counters of `process_bulk_scan` (line 299). -/
structure Stats where
  total : Nat
  successful : Nat
  failed : Nat
deriving DecidableEq, Repr

/-- One record of `successful_targets` (lines 364-369). -/
structure SuccInfo where
  target : List Char
  injection_detected : Bool
  db_type : Option (List Char)
  db_version : Option (List Char)
deriving DecidableEq, Repr

/-- Observable events of a run, in order: a target iteration starting
(with a snapshot of the temp files existing at that moment), a temporary
file being created, the scan runner being invoked, and an `os.unlink` call
actually removing a file. -/
inductive Event where
  | started (i : Nat) (fsAtStart : List Nat)
  | created (p : Nat)
  | scanned (i : Nat)
  | deleted (p : Nat)
deriving DecidableEq, Repr

/-- Behaviour of the temporary-file creation block (lines 325-344). -/
inductive TempB where
  | ok
  | errors
  | keyboard
deriving DecidableEq, Repr

/-- Behaviour of the `run_sqlmap` call (line 348): it completes with an
exit code and captured output, raises `KeyboardInterrupt`, or raises some
other exception. -/
inductive ScanB where
  | completes (rc : Int) (out : List Char)
  | keyboard
  | errors
deriving DecidableEq, Repr

/-- Environment for one target iteration. -/
structure IterEnv where
  rewriteOk : Bool
  tempB : TempB
  scan : ScanB
deriving DecidableEq, Repr

/-- Mutable state of the orchestrator loop: the counters, the
successful-target records, the `temp_files` registry (paths are appended
and never removed, line 338), the set of temporary files existing on disk,
the contents written to them, and the event log. -/
structure LoopSt where
  stats : Stats
  successfulTargets : List SuccInfo
  tempFiles : List Nat
  fs : List Nat
  written : List (Nat × List Char)
  log : List Event
deriving DecidableEq, Repr

/-- Model of the guarded deletion `if os.path.exists(p): os.unlink(p)`
(lines 386-387 and 398-399): removing an absent file is a no-op. -/
def unlinkIfExists (p : Nat) (fs : List Nat) : List Nat :=
  if fs.contains p then fs.erase p else fs

/-- Guarded deletion acting on the loop state, logging the unlink call
that actually removes a file. -/
def cleanupFile (p : Nat) (st : LoopSt) : LoopSt :=
  { st with
    fs := unlinkIfExists p st.fs,
    log := st.log ++ (if st.fs.contains p then [Event.deleted p] else []) }

/-- Temporary-file creation (lines 328-338): the file appears on disk with
the mutated request written to it, and its path is appended to the
`temp_files` registry. -/
def createTemp (i : Nat) (content : List Char) (st : LoopSt) : LoopSt :=
  { st with
    fs := st.fs ++ [i],
    tempFiles := st.tempFiles ++ [i],
    written := st.written ++ [(i, content)],
    log := st.log ++ [Event.created i] }

/-- Increment the `failed` counter. -/
def addFailed (st : LoopSt) : LoopSt :=
  { st with stats := { st.stats with failed := st.stats.failed + 1 } }

/-- Embedding of one iteration of the target loop (lines 305-390).
The returned flag is true when a `KeyboardInterrupt` escapes the
iteration.  Control flow follows the source: a target without a colon is
counted failed before anything else; a rewrite error is counted failed; a
temporary-file error is counted failed; when the scan runs, success is
decided solely by the classifier flags, and the `finally` block removes
the iteration's temporary file on every path, including the interrupt
path. -/
def runIter (e : IterEnv) (i : Nat) (tmpl t : List Char) (st : LoopSt) :
    LoopSt × Bool :=
  let st1 : LoopSt := { st with log := st.log ++ [Event.started i st.fs] }
  if !(t.contains ':') then (addFailed st1, false)
  else if !e.rewriteOk then (addFailed st1, false)
  else
    let modified := replace_host_in_request tmpl t
    match e.tempB with
    | TempB.errors => (addFailed st1, false)
    | TempB.keyboard => (createTemp i modified st1, true)
    | TempB.ok =>
        let st2 := createTemp i modified st1
        let st3 : LoopSt := { st2 with log := st2.log ++ [Event.scanned i] }
        match e.scan with
        | ScanB.completes _ out =>
            let a := analyze_sqlmap_output out
            let st4 :=
              if a.injection_detected || a.db_fingerprint then
                { st3 with
                  stats := { st3.stats with successful := st3.stats.successful + 1 },
                  successfulTargets := st3.successfulTargets ++
                    [⟨t, a.injection_detected, a.db_type, a.db_version⟩] }
              else addFailed st3
            (cleanupFile i st4, false)
        | ScanB.keyboard => (cleanupFile i st3, true)
        | ScanB.errors => (cleanupFile i (addFailed st3), false)

/-- The target loop (lines 303-391): process targets in order; a
`KeyboardInterrupt` escaping an iteration stops the loop at once. -/
def bulkLoop (envs : Nat → IterEnv) (tmpl : List Char) :
    Nat → List (List Char) → LoopSt → LoopSt × Bool
  | _, [], st => (st, false)
  | i, t :: ts, st =>
      let r := runIter (envs i) i tmpl t st
      if r.2 then (r.1, true) else bulkLoop envs tmpl (i + 1) ts r.1

/-- The outer cleanup pass (lines 394-401): walk the whole `temp_files`
registry and remove every file that still exists. -/
def outerCleanup : List Nat → LoopSt → LoopSt
  | [], st => st
  | p :: ps, st => outerCleanup ps (cleanupFile p st)

/-- Result of `process_bulk_scan`: the final loop state plus whether the
run was interrupted.  Because the interrupt is caught at line 392 and not
re-raised, the function returns this record in both cases. -/
structure BulkResult where
  stats : Stats
  successfulTargets : List SuccInfo
  tempFiles : List Nat
  fs : List Nat
  written : List (Nat × List Char)
  log : List Event
  interrupted : Bool
deriving DecidableEq, Repr

/-- Embedding of `process_bulk_scan` (lines 271-404): empty target lists
return zero counters at once (line 290); otherwise `total` is fixed to the
target count up front (line 299), the loop runs until done or
interrupted, and the outer cleanup pass always runs (the `finally` at
line 394). -/
def process_bulk_scan (envs : Nat → IterEnv) (tmpl : List Char)
    (targets : List (List Char)) : BulkResult :=
  if targets.isEmpty then ⟨⟨0, 0, 0⟩, [], [], [], [], [], false⟩
  else
    let st0 : LoopSt := ⟨⟨targets.length, 0, 0⟩, [], [], [], [], []⟩
    let r := bulkLoop envs tmpl 0 targets st0
    let stF := outerCleanup r.1.tempFiles r.1
    ⟨stF.stats, stF.successfulTargets, stF.tempFiles, stF.fs, stF.written,
      stF.log, r.2⟩

/-- Exit-code computation on `main`'s normal path (line 544).  Because
`process_bulk_scan` catches `KeyboardInterrupt` (line 392) and returns
normally, an interrupt raised during a target's processing reaches this
computation, not the `except KeyboardInterrupt: sys.exit(130)` handler of
`main` (lines 546-548), which only interrupts raised outside the bulk
loop can reach. -/
def mainExitCode (stats : Stats) : Nat :=
  if stats.failed = 0 then 0 else 1

/-! ### Pure per-iteration characterizations used to state the claims -/

/-- Whether the iteration reaches the temporary-file creation block. -/
def reachesCreate (e : IterEnv) (t : List Char) : Bool :=
  t.contains ':' && e.rewriteOk &&
    (match e.tempB with
     | TempB.errors => false
     | _ => true)

/-- Whether the iteration invokes the scan runner. -/
def reachesScan (e : IterEnv) (t : List Char) : Bool :=
  t.contains ':' && e.rewriteOk &&
    (match e.tempB with
     | TempB.ok => true
     | _ => false)

/-- Whether a `KeyboardInterrupt` escapes the iteration. -/
def iterInterrupts (e : IterEnv) (t : List Char) : Bool :=
  t.contains ':' && e.rewriteOk &&
    (match e.tempB with
     | TempB.keyboard => true
     | TempB.errors => false
     | TempB.ok =>
         match e.scan with
         | ScanB.keyboard => true
         | _ => false)

/-- Whether the iteration leaves its temporary file on disk (interrupt
after creation but before the scan's `try`/`finally` is entered). -/
def leavesTemp (e : IterEnv) (t : List Char) : Bool :=
  t.contains ':' && e.rewriteOk &&
    (match e.tempB with
     | TempB.keyboard => true
     | _ => false)

/-- Whether the iteration is counted successful. -/
def iterSucc (e : IterEnv) (t : List Char) : Bool :=
  reachesScan e t &&
    (match e.scan with
     | ScanB.completes _ out =>
         (analyze_sqlmap_output out).injection_detected ||
           (analyze_sqlmap_output out).db_fingerprint
     | _ => false)

/-- Whether the iteration is counted failed. -/
def iterFails (e : IterEnv) (t : List Char) : Bool :=
  !(iterInterrupts e t) && !(iterSucc e t)

/-- The successful-target record the iteration appends, if any. -/
def iterSuccList (e : IterEnv) (t : List Char) : List SuccInfo :=
  if iterSucc e t then
    match e.scan with
    | ScanB.completes _ out =>
        let a := analyze_sqlmap_output out
        [⟨t, a.injection_detected, a.db_type, a.db_version⟩]
    | _ => []
  else []

/-- The events one iteration appends to the log, when it starts with an
empty temporary-file system. -/
def iterTrace (e : IterEnv) (i : Nat) (t : List Char) : List Event :=
  Event.started i [] ::
    ((if reachesCreate e t then [Event.created i] else []) ++
     (if reachesScan e t then [Event.scanned i] else []) ++
     (if reachesScan e t then [Event.deleted i] else []))

/-- Events appended by a run over a target segment starting at index `i`. -/
def traceAll (envs : Nat → IterEnv) : Nat → List (List Char) → List Event
  | _, [] => []
  | i, t :: ts => iterTrace (envs i) i t ++ traceAll envs (i + 1) ts

/-- Successful-iteration count over a target segment starting at index `i`. -/
def succCount (envs : Nat → IterEnv) : Nat → List (List Char) → Nat
  | _, [] => 0
  | i, t :: ts => (if iterSucc (envs i) t then 1 else 0) + succCount envs (i + 1) ts

/-- Failed-iteration count over a target segment starting at index `i`. -/
def failCount (envs : Nat → IterEnv) : Nat → List (List Char) → Nat
  | _, [] => 0
  | i, t :: ts => (if iterFails (envs i) t then 1 else 0) + failCount envs (i + 1) ts

/-- Successful-target records over a target segment starting at index `i`. -/
def succListAll (envs : Nat → IterEnv) : Nat → List (List Char) → List SuccInfo
  | _, [] => []
  | i, t :: ts => iterSuccList (envs i) t ++ succListAll envs (i + 1) ts

/-- Created temporary-file paths over a target segment starting at `i`. -/
def createdAll (envs : Nat → IterEnv) : Nat → List (List Char) → List Nat
  | _, [] => []
  | i, t :: ts =>
      (if reachesCreate (envs i) t then [i] else []) ++ createdAll envs (i + 1) ts

/-- Written contents over a target segment starting at `i`. -/
def writtenAll (envs : Nat → IterEnv) (tmpl : List Char) :
    Nat → List (List Char) → List (Nat × List Char)
  | _, [] => []
  | i, t :: ts =>
      (if reachesCreate (envs i) t then [(i, replace_host_in_request tmpl t)] else [])
        ++ writtenAll envs tmpl (i + 1) ts

/-- Index of the first iteration whose `KeyboardInterrupt` escapes, if any. -/
def firstIntr (envs : Nat → IterEnv) : Nat → List (List Char) → Option Nat
  | _, [] => none
  | i, t :: ts =>
      if iterInterrupts (envs i) t then some i else firstIntr envs (i + 1) ts

/-! ## Lemmas: basic text utilities -/

theorem startsWithL_iff {p s : List Char} :
    startsWithL p s = true ↔ ∃ t, s = p ++ t := by
  induction p generalizing s with
  | nil => simp [startsWithL]
  | cons a ps ih =>
      cases s with
      | nil =>
          simp [startsWithL]
      | cons c cs =>
          simp only [startsWithL, Bool.and_eq_true, decide_eq_true_eq, ih,
            List.cons_append, List.cons.injEq]
          constructor
          · rintro ⟨rfl, t, rfl⟩; exact ⟨t, rfl, rfl⟩
          · rintro ⟨t, rfl, rfl⟩; exact ⟨rfl, t, rfl⟩

theorem startsWithL_append_self (p t : List Char) :
    startsWithL p (p ++ t) = true :=
  startsWithL_iff.mpr ⟨t, rfl⟩

theorem startsWithL_length_le {p s : List Char} (h : startsWithL p s = true) :
    p.length ≤ s.length := by
  obtain ⟨t, rfl⟩ := startsWithL_iff.mp h
  simp

theorem containsSub_iff {hay pat : List Char} :
    containsSub hay pat = true ↔ ∃ a b, hay = a ++ pat ++ b := by
  induction hay with
  | nil =>
      simp only [containsSub, Bool.or_false]
      rw [startsWithL_iff]
      constructor
      · rintro ⟨t, ht⟩
        exact ⟨[], t, ht⟩
      · rintro ⟨a, b, hab⟩
        rcases List.append_eq_nil.mp (List.append_eq_nil.mp hab.symm).1 with ⟨_, h2⟩
        exact ⟨b, by simp_all⟩
  | cons c t ih =>
      simp only [containsSub, Bool.or_eq_true, ih]
      rw [startsWithL_iff]
      constructor
      · rintro (⟨w, hw⟩ | ⟨a, b, hab⟩)
        · exact ⟨[], w, by simp [hw]⟩
        · exact ⟨c :: a, b, by simp [hab]⟩
      · rintro ⟨a, b, hab⟩
        cases a with
        | nil => exact Or.inl ⟨b, by simpa using hab⟩
        | cons a0 as =>
            right
            refine ⟨as, b, ?_⟩
            have := hab
            simp only [List.cons_append] at this
            exact (List.cons.injEq _ _ _ _).mp this |>.2

theorem containsSub_append_of_mid (a w b : List Char) :
    containsSub (a ++ w ++ b) w = true :=
  containsSub_iff.mpr ⟨a, b, rfl⟩

/-! ## Lemmas: pattern search (`gapMatch`, `reSearch`) -/

theorem litStep_eq_some {l hay r : List Char} :
    litStep l hay = some r ↔ startsWithL l hay = true ∧ r = hay.drop l.length := by
  unfold litStep
  split
  next h => simp [h, eq_comm]
  next h => simp [h]

theorem gapSeek_iff {g : Char → Bool} {l : List Char} {k : List Char → Bool}
    {hay : List Char} :
    gapSeek g l k hay = true ↔
      ∃ pre rest, hay = pre ++ l ++ rest ∧ (∀ c ∈ pre, g c = true) ∧
        k rest = true := by
  induction hay with
  | nil =>
      simp only [gapSeek]
      cases l with
      | nil =>
          simp only [litStep, startsWithL, if_pos, List.drop_nil]
          constructor
          · intro h; exact ⟨[], [], rfl, by simp, h⟩
          · rintro ⟨pre, rest, heq, _, hk⟩
            rcases List.append_eq_nil.mp heq.symm with ⟨h1, h2⟩
            rcases List.append_eq_nil.mp h1 with ⟨rfl, -⟩
            subst h2; exact hk
      | cons x xs =>
          simp only [litStep, startsWithL, if_neg, Bool.false_eq_true]
          constructor
          · intro h; cases h
          · rintro ⟨pre, rest, heq, -, -⟩
            exfalso
            have := congrArg List.length heq
            simp only [List.length_nil, List.length_append, List.length_cons] at this
            omega
  | cons c cs ih =>
      simp only [gapSeek, Bool.or_eq_true, Bool.and_eq_true]
      constructor
      · rintro (h1 | ⟨hg, h2⟩)
        · rcases hl : litStep l (c :: cs) with _ | r'
          · rw [hl] at h1; cases h1
          · rw [hl] at h1
            obtain ⟨hsw, hr'⟩ := litStep_eq_some.mp hl
            obtain ⟨t, ht⟩ := startsWithL_iff.mp hsw
            refine ⟨[], t, by simpa using ht, by simp, ?_⟩
            have : r' = t := by
              rw [hr', ht, List.drop_append_of_le_length le_rfl]
              simp
            rwa [this] at h1
        · obtain ⟨pre, rest, heq, hpre, hk⟩ := ih.mp h2
          exact ⟨c :: pre, rest, by simp [heq], by
            intro d hd
            rcases List.mem_cons.mp hd with rfl | hd
            · exact hg
            · exact hpre d hd, hk⟩
      · rintro ⟨pre, rest, heq, hpre, hk⟩
        cases pre with
        | nil =>
            left
            simp only [List.nil_append] at heq
            have hsw : startsWithL l (c :: cs) = true := by
              rw [heq]; exact startsWithL_append_self l rest
            have hstep : litStep l (c :: cs) = some rest := by
              rw [litStep_eq_some]
              refine ⟨hsw, ?_⟩
              rw [heq, List.drop_append_of_le_length le_rfl]
              simp
            rw [hstep]
            exact hk
        | cons p ps =>
            right
            simp only [List.cons_append, List.cons.injEq] at heq
            obtain ⟨rfl, heq2⟩ := heq
            refine ⟨hpre c (by simp), ?_⟩
            exact ih.mpr ⟨ps, rest, heq2, fun d hd => hpre d (by simp [hd]), hk⟩

theorem gapMatch_append {g : Char → Bool} :
    ∀ {ls : List (List Char)} {r : List Char} (b : List Char),
      gapMatch g ls r = true → gapMatch g ls (r ++ b) = true := by
  intro ls
  induction ls with
  | nil => intro r b _; rfl
  | cons l ls ih =>
      intro r b h
      have h' := gapSeek_iff.mp h
      obtain ⟨pre, rest, heq, hpre, hk⟩ := h'
      exact gapSeek_iff.mpr ⟨pre, rest ++ b, by simp [heq], hpre, ih b hk⟩

theorem gapMatch_head {g : Char → Bool} {l t : List Char} {ls : List (List Char)}
    (h2 : gapMatch g ls t = true) :
    gapMatch g (l :: ls) (l ++ t) = true :=
  gapSeek_iff.mpr ⟨[], t, by simp, by simp, h2⟩

theorem gapMatch_imp_reSearch {g : Char → Bool} {ls : List (List Char)}
    {hay : List Char} (h : gapMatch g ls hay = true) :
    reSearch g ls hay = true := by
  cases hay with
  | nil => simpa [reSearch] using h
  | cons c cs => simp [reSearch, h]

theorem reSearch_append_left {g : Char → Bool} {ls : List (List Char)}
    (a : List Char) {r : List Char} (h : reSearch g ls r = true) :
    reSearch g ls (a ++ r) = true := by
  induction a with
  | nil => simpa using h
  | cons c cs ih =>
      rw [List.cons_append]
      show reSearch g ls (c :: (cs ++ r)) = true
      simp only [reSearch, Bool.or_eq_true]
      exact Or.inr ih

theorem reSearch_of_containsSub {g : Char → Bool} {ls : List (List Char)}
    {w hay : List Char} (hw : gapMatch g ls w = true)
    (h : containsSub hay w = true) : reSearch g ls hay = true := by
  obtain ⟨a, b, rfl⟩ := containsSub_iff.mp h
  rw [List.append_assoc]
  exact reSearch_append_left a (gapMatch_imp_reSearch (gapMatch_append b hw))

/-! ## Lemmas: line splitting and joining -/

theorem splitNL_cons_eq (c : Char) (cs : List Char) {a : List Char}
    {t : List (List Char)} (hsp : splitNL cs = a :: t) :
    splitNL (c :: cs) = if c = '\n' then [] :: a :: t else (c :: a) :: t := by
  simp only [splitNL, hsp]

theorem splitNL_ne_nil (s : List Char) : splitNL s ≠ [] := by
  induction s with
  | nil => simp [splitNL]
  | cons c cs ih =>
      cases h : splitNL cs with
      | nil => exact absurd h ih
      | cons a t =>
          rw [splitNL_cons_eq c cs h]
          by_cases hc : c = '\n' <;> simp [hc]

theorem exists_splitNL_cons (cs : List Char) :
    ∃ a t, splitNL cs = a :: t := by
  cases h : splitNL cs with
  | nil => exact absurd h (splitNL_ne_nil cs)
  | cons a t => exact ⟨a, t, rfl⟩

theorem joinNL_cons_cons (x y : List Char) (zs : List (List Char)) :
    joinNL (x :: y :: zs) = x ++ '\n' :: joinNL (y :: zs) := rfl

theorem joinNL_cons_head (c : Char) (h : List Char) (t : List (List Char)) :
    joinNL ((c :: h) :: t) = c :: joinNL (h :: t) := by
  cases t with
  | nil => rfl
  | cons y zs => simp [joinNL_cons_cons]

theorem joinNL_splitNL (s : List Char) : joinNL (splitNL s) = s := by
  induction s with
  | nil => rfl
  | cons c cs ih =>
      obtain ⟨a, t, hsp⟩ := exists_splitNL_cons cs
      rw [hsp] at ih
      rw [splitNL_cons_eq c cs hsp]
      by_cases hc : c = '\n'
      · subst hc
        rw [if_pos rfl, joinNL_cons_cons]
        simp [ih]
      · rw [if_neg hc, joinNL_cons_head, ih]

theorem noNL_mem_splitNL {s l : List Char} (h : l ∈ splitNL s) : '\n' ∉ l := by
  induction s generalizing l with
  | nil =>
      simp only [splitNL, List.mem_singleton] at h
      subst h; simp
  | cons c cs ih =>
      obtain ⟨a, t, hsp⟩ := exists_splitNL_cons cs
      rw [splitNL_cons_eq c cs hsp] at h
      by_cases hc : c = '\n'
      · rw [if_pos hc] at h
        rcases List.mem_cons.mp h with rfl | h2
        · simp
        · exact ih (hsp ▸ h2)
      · rw [if_neg hc] at h
        rcases List.mem_cons.mp h with rfl | h2
        · intro hmem
          rcases List.mem_cons.mp hmem with rfl | h3
          · exact hc rfl
          · exact ih (hsp ▸ List.mem_cons_self a t) h3
        · exact ih (hsp ▸ List.mem_cons_of_mem a h2)

theorem splitNL_noNL {l : List Char} (h : '\n' ∉ l) : splitNL l = [l] := by
  induction l with
  | nil => rfl
  | cons c cs ih =>
      have hc : ¬(c = '\n') := fun hc => h (hc ▸ List.mem_cons_self c cs)
      have hcs : '\n' ∉ cs := fun h2 => h (List.mem_cons_of_mem c h2)
      rw [splitNL_cons_eq c cs (ih hcs), if_neg hc]

theorem splitNL_append_nl {l r : List Char} (h : '\n' ∉ l) :
    splitNL (l ++ '\n' :: r) = l :: splitNL r := by
  induction l with
  | nil =>
      obtain ⟨a, t, hsp⟩ := exists_splitNL_cons r
      rw [List.nil_append, splitNL_cons_eq '\n' r hsp, if_pos rfl, hsp]
  | cons c cs ih =>
      have hc : ¬(c = '\n') := fun hc => h (hc ▸ List.mem_cons_self c cs)
      have hcs : '\n' ∉ cs := fun h2 => h (List.mem_cons_of_mem c h2)
      rw [List.cons_append]
      have hmid := ih hcs
      obtain ⟨a, t, hsp⟩ := exists_splitNL_cons (cs ++ '\n' :: r)
      rw [hsp] at hmid
      rw [splitNL_cons_eq c _ hsp, if_neg hc]
      cases hmid
      rfl

theorem splitNL_joinNL {ls : List (List Char)} (h1 : ls ≠ [])
    (h2 : ∀ l ∈ ls, '\n' ∉ l) : splitNL (joinNL ls) = ls := by
  induction ls with
  | nil => exact absurd rfl h1
  | cons l t ih =>
      cases t with
      | nil =>
          show splitNL (joinNL [l]) = [l]
          exact splitNL_noNL (h2 l (by simp))
      | cons y zs =>
          rw [joinNL_cons_cons, splitNL_append_nl (h2 l (by simp))]
          rw [ih (by simp) (fun m hm => h2 m (List.mem_cons_of_mem l hm))]

/-! ## Lemmas: the multiline Host substitution, line by line -/

theorem hostScan_mid_copy {T : List Char} :
    ∀ {l : List Char} (r : List Char), '\n' ∉ l →
      hostScan T HState.mid (l ++ r) = l ++ hostScan T HState.mid r := by
  intro l
  induction l with
  | nil => intro r _; rfl
  | cons c cs ih =>
      intro r h
      have hc : ¬(c = '\n') := fun hc => h (hc ▸ List.mem_cons_self c cs)
      have hcs : '\n' ∉ cs := fun h2 => h (List.mem_cons_of_mem c h2)
      rw [List.cons_append]
      show hostScan T HState.mid (c :: (cs ++ r)) = c :: (cs ++ hostScan T HState.mid r)
      simp only [hostScan, if_neg hc]
      rw [ih r hcs]

theorem hostScan_mid_nl {T r : List Char} :
    hostScan T HState.mid ('\n' :: r) = '\n' :: hostScan T HState.start r := by
  simp [hostScan]

theorem hostScan_mid_nil {T : List Char} : hostScan T HState.mid [] = [] := rfl

theorem hostMatch5_cons5 (c1 c2 c3 c4 c5 : Char) (rest : List Char) :
    hostMatch5 (c1 :: c2 :: c3 :: c4 :: c5 :: rest) = host5 c1 c2 c3 c4 c5 := rfl

theorem hostScan_start_step {T : List Char} {c : Char} {cs : List Char}
    (h : hostMatch5 (c :: cs) = false) :
    hostScan T HState.start (c :: cs) =
      c :: hostScan T (if c = '\n' then HState.start else HState.mid) cs := by
  match cs with
  | [] => rfl
  | [c2] => rfl
  | [c2, c3] => rfl
  | [c2, c3, c4] => rfl
  | c2 :: c3 :: c4 :: c5 :: rest =>
      rw [hostMatch5_cons5] at h
      simp only [hostScan, h]
      simp

theorem hostScan_start_hit {T : List Char} {c1 c2 c3 c4 c5 : Char}
    {rest : List Char} (h : host5 c1 c2 c3 c4 c5 = true) :
    hostScan T HState.start (c1 :: c2 :: c3 :: c4 :: c5 :: rest) =
      c1 :: c2 :: c3 :: c4 :: c5 :: hostScan T HState.inWs rest := by
  simp [hostScan, h]

theorem hostMatch5_nl_head (x : List Char) : hostMatch5 ('\n' :: x) = false := by
  match x with
  | [] => rfl
  | [c2] => rfl
  | [c2, c3] => rfl
  | [c2, c3, c4] => rfl
  | c2 :: c3 :: c4 :: c5 :: rest =>
      rw [hostMatch5_cons5]
      simp [host5, asciiLower]

theorem hostMatch5_append_of_ge {l x : List Char} (h5 : 5 ≤ l.length) :
    hostMatch5 (l ++ x) = hostMatch5 l := by
  match l, h5 with
  | c1 :: c2 :: c3 :: c4 :: c5 :: rest, _ => rfl

theorem hostMatch5_short_append_nl {l r : List Char} (hlen : l.length < 5)
    (h : '\n' ∉ l) : hostMatch5 (l ++ '\n' :: r) = false := by
  match l, hlen with
  | [], _ => exact hostMatch5_nl_head r
  | [a], _ =>
      match r with
      | [] => rfl
      | [b] => rfl
      | [b, c] => rfl
      | b :: c :: d :: rr =>
          rw [List.cons_append, List.nil_append, hostMatch5_cons5]
          simp [host5, asciiLower]
  | [a, b], _ =>
      match r with
      | [] => rfl
      | [c] => rfl
      | c :: d :: rr =>
          simp only [List.cons_append, List.nil_append, hostMatch5_cons5]
          simp [host5, asciiLower]
  | [a, b, c], _ =>
      match r with
      | [] => rfl
      | d :: rr =>
          simp only [List.cons_append, List.nil_append, hostMatch5_cons5]
          simp [host5, asciiLower]
  | [a, b, c, d], _ =>
      simp only [List.cons_append, List.nil_append, hostMatch5_cons5]
      simp [host5, asciiLower]

theorem hostMatch5_append_nl {l r : List Char} (h : '\n' ∉ l) :
    hostMatch5 (l ++ '\n' :: r) = hostMatch5 l := by
  rcases Nat.lt_or_ge l.length 5 with hl | hl
  · rw [hostMatch5_short_append_nl hl h]
    match l, hl with
    | [], _ => rfl
    | [a], _ => rfl
    | [a, b], _ => rfl
    | [a, b, c], _ => rfl
    | [a, b, c, d], _ => rfl
  · exact hostMatch5_append_of_ge hl

theorem hostScan_start_nomatch_line {T : List Char} {l : List Char}
    (r : List Char) (hm : hostMatch5 l = false) (hn : '\n' ∉ l) :
    hostScan T HState.start (l ++ '\n' :: r) =
      l ++ '\n' :: hostScan T HState.start r := by
  cases l with
  | nil =>
      rw [List.nil_append]
      rw [hostScan_start_step (hostMatch5_nl_head r)]
      simp
  | cons c cs =>
      have hc : ¬(c = '\n') := fun hc => hn (hc ▸ List.mem_cons_self c cs)
      have hcs : '\n' ∉ cs := fun h2 => hn (List.mem_cons_of_mem c h2)
      have hm2 : hostMatch5 ((c :: cs) ++ '\n' :: r) = false := by
        rw [hostMatch5_append_nl hn]; exact hm
      rw [List.cons_append] at hm2 ⊢
      rw [hostScan_start_step hm2]
      simp only [if_neg hc]
      rw [show cs ++ '\n' :: r = cs ++ ('\n' :: r) from rfl,
        hostScan_mid_copy ('\n' :: r) hcs, hostScan_mid_nl]
      simp

theorem hostScan_start_nomatch_last {T : List Char} {l : List Char}
    (hm : hostMatch5 l = false) (hn : '\n' ∉ l) :
    hostScan T HState.start l = l := by
  cases l with
  | nil => rfl
  | cons c cs =>
      have hc : ¬(c = '\n') := fun hc => hn (hc ▸ List.mem_cons_self c cs)
      have hcs : '\n' ∉ cs := fun h2 => hn (List.mem_cons_of_mem c h2)
      rw [hostScan_start_step hm]
      simp only [if_neg hc]
      have := hostScan_mid_copy (T := T) ([] : List Char) hcs
      rw [List.append_nil] at this
      rw [this, hostScan_mid_nil, List.append_nil]

theorem hostScan_inWs_copy {T : List Char} :
    ∀ {ws : List Char} (x : List Char), (∀ c ∈ ws, isSpace c = true) →
      hostScan T HState.inWs (ws ++ x) = ws ++ hostScan T HState.inWs x := by
  intro ws
  induction ws with
  | nil => intro x _; rfl
  | cons c cs ih =>
      intro x h
      rw [List.cons_append]
      show hostScan T HState.inWs (c :: (cs ++ x)) = c :: (cs ++ hostScan T HState.inWs x)
      simp only [hostScan, h c (by simp), if_pos]
      rw [ih x (fun d hd => h d (List.mem_cons_of_mem c hd))]

theorem hostScan_inWs_stop {T : List Char} {d : Char} {x : List Char}
    (hd : isSpace d = false) :
    hostScan T HState.inWs (d :: x) = T ++ hostScan T HState.inRest x := by
  simp [hostScan, hd]

theorem hostScan_inRest_drop {T : List Char} :
    ∀ {ds : List Char} (x : List Char), '\n' ∉ ds →
      hostScan T HState.inRest (ds ++ x) = hostScan T HState.inRest x := by
  intro ds
  induction ds with
  | nil => intro x _; rfl
  | cons c cs ih =>
      intro x h
      have hc : ¬(c = '\n') := fun hc => h (hc ▸ List.mem_cons_self c cs)
      rw [List.cons_append]
      show hostScan T HState.inRest (c :: (cs ++ x)) = hostScan T HState.inRest x
      simp only [hostScan, if_neg hc]
      exact ih x (fun hd => h (List.mem_cons_of_mem c hd))

theorem hostScan_inRest_nl {T r : List Char} :
    hostScan T HState.inRest ('\n' :: r) = '\n' :: hostScan T HState.start r := by
  simp [hostScan]

theorem hostScan_inRest_nil {T : List Char} : hostScan T HState.inRest [] = [] := rfl

theorem hostMatch5_shape {l : List Char} (h : hostMatch5 l = true) :
    ∃ c1 c2 c3 c4 c5 tail, l = c1 :: c2 :: c3 :: c4 :: c5 :: tail ∧
      host5 c1 c2 c3 c4 c5 = true := by
  match l, h with
  | c1 :: c2 :: c3 :: c4 :: c5 :: tail, h =>
      exact ⟨c1, c2, c3, c4, c5, tail, rfl, h⟩

theorem subLine_of_nomatch {T l : List Char} (h : hostMatch5 l = false) :
    subLine T l = l := by
  match l with
  | [] => rfl
  | [a] => rfl
  | [a, b] => rfl
  | [a, b, c] => rfl
  | [a, b, c, d] => rfl
  | c1 :: c2 :: c3 :: c4 :: c5 :: tail =>
      rw [hostMatch5_cons5] at h
      simp [subLine, h]

theorem subLine_of_match {T : List Char} {c1 c2 c3 c4 c5 : Char}
    {tail : List Char} (h : host5 c1 c2 c3 c4 c5 = true) :
    subLine T (c1 :: c2 :: c3 :: c4 :: c5 :: tail) =
      c1 :: c2 :: c3 :: c4 :: c5 :: (tail.takeWhile isSpace ++ T) := by
  simp [subLine, h]

theorem dropWhile_head_false {p : Char → Bool} :
    ∀ {l : List Char} {d : Char} {ds : List Char},
      l.dropWhile p = d :: ds → p d = false := by
  intro l
  induction l with
  | nil => intro d ds h; cases h
  | cons c cs ih =>
      intro d ds h
      rw [List.dropWhile_cons] at h
      split at h
      · exact ih h
      next hc =>
          cases h
          exact Bool.not_eq_true _ |>.mp hc

theorem hostScan_inWs_value {T tail : List Char} (hn : '\n' ∉ tail)
    (hv : tail.dropWhile isSpace ≠ []) (x : List Char) :
    hostScan T HState.inWs (tail ++ x) =
      tail.takeWhile isSpace ++ T ++
        hostScan T HState.inRest ((tail.dropWhile isSpace).tail ++ x) := by
  obtain ⟨d, ds, hds⟩ := List.exists_cons_of_ne_nil hv
  have hdfalse : isSpace d = false := dropWhile_head_false hds
  have hws : ∀ c ∈ tail.takeWhile isSpace, isSpace c = true :=
    fun c hc => List.mem_takeWhile_imp hc
  calc hostScan T HState.inWs (tail ++ x)
      = hostScan T HState.inWs
          (tail.takeWhile isSpace ++ (tail.dropWhile isSpace ++ x)) := by
        rw [← List.append_assoc, List.takeWhile_append_dropWhile]
    _ = tail.takeWhile isSpace ++
          hostScan T HState.inWs (tail.dropWhile isSpace ++ x) :=
        hostScan_inWs_copy _ hws
    _ = tail.takeWhile isSpace ++
          (T ++ hostScan T HState.inRest (ds ++ x)) := by
        rw [hds, List.cons_append, hostScan_inWs_stop hdfalse]
    _ = tail.takeWhile isSpace ++ T ++
          hostScan T HState.inRest ((tail.dropWhile isSpace).tail ++ x) := by
        rw [hds, List.tail_cons, List.append_assoc]

theorem hostScan_start_hostline_mid {T : List Char} {c1 c2 c3 c4 c5 : Char}
    {tail : List Char} (h5 : host5 c1 c2 c3 c4 c5 = true) (hn : '\n' ∉ tail)
    (hv : tail.dropWhile isSpace ≠ []) (r : List Char) :
    hostScan T HState.start ((c1 :: c2 :: c3 :: c4 :: c5 :: tail) ++ '\n' :: r) =
      (c1 :: c2 :: c3 :: c4 :: c5 :: (tail.takeWhile isSpace ++ T)) ++
        '\n' :: hostScan T HState.start r := by
  have hnds : '\n' ∉ (tail.dropWhile isSpace).tail := by
    intro hmem
    exact hn ((List.dropWhile_sublist isSpace).mem (List.tail_sublist _ |>.mem hmem))
  rw [List.cons_append, List.cons_append, List.cons_append, List.cons_append,
    List.cons_append]
  rw [hostScan_start_hit h5]
  rw [show tail ++ '\n' :: r = tail ++ ('\n' :: r) from rfl]
  rw [hostScan_inWs_value hn hv]
  rw [hostScan_inRest_drop _ hnds, hostScan_inRest_nl]
  simp [List.append_assoc]

theorem hostScan_inRest_all {T : List Char} {ds : List Char} (h : '\n' ∉ ds) :
    hostScan T HState.inRest ds = [] := by
  have := hostScan_inRest_drop (T := T) [] h
  rw [List.append_nil] at this
  rw [this, hostScan_inRest_nil]

theorem hostScan_start_hostline_last {T : List Char} {c1 c2 c3 c4 c5 : Char}
    {tail : List Char} (h5 : host5 c1 c2 c3 c4 c5 = true) (hn : '\n' ∉ tail)
    (hv : tail.dropWhile isSpace ≠ []) :
    hostScan T HState.start (c1 :: c2 :: c3 :: c4 :: c5 :: tail) =
      c1 :: c2 :: c3 :: c4 :: c5 :: (tail.takeWhile isSpace ++ T) := by
  have hnds : '\n' ∉ (tail.dropWhile isSpace).tail := by
    intro hmem
    exact hn ((List.dropWhile_sublist isSpace).mem (List.tail_sublist _ |>.mem hmem))
  rw [hostScan_start_hit h5]
  have hws := hostScan_inWs_value (T := T) hn hv []
  simp only [List.append_nil] at hws
  rw [hws, hostScan_inRest_all hnds, List.append_nil]

/-- The substitution pass, line by line (the `re.sub` of lines 42-47 as a
map over the template's lines): provided no `Host:` line has a pure
whitespace value — the one case where Python's `\s*` runs across the line
boundary — the scan rewrites every `Host:`-headed line with `subLine` and
copies every other line verbatim. -/
theorem hostScan_lines (T : List Char) :
    ∀ (lines : List (List Char)), lines ≠ [] →
      (∀ l ∈ lines, '\n' ∉ l) →
      (∀ l ∈ lines, hostMatch5 l = true → (l.drop 5).dropWhile isSpace ≠ []) →
      hostScan T HState.start (joinNL lines) = joinNL (lines.map (subLine T)) := by
  intro lines
  induction lines with
  | nil => intro h; exact absurd rfl h
  | cons l t ih =>
      intro _ hnl hbl
      cases t with
      | nil =>
          show hostScan T HState.start (joinNL [l]) = joinNL [subLine T l]
          cases hm : hostMatch5 l with
          | false =>
              show hostScan T HState.start l = subLine T l
              rw [hostScan_start_nomatch_last hm (hnl l (by simp)),
                subLine_of_nomatch hm]
          | true =>
              obtain ⟨c1, c2, c3, c4, c5, tail, rfl, h5⟩ := hostMatch5_shape hm
              have hn : '\n' ∉ tail := fun hmem =>
                hnl (c1 :: c2 :: c3 :: c4 :: c5 :: tail)
                  (List.mem_cons_self _ _) (by simp [hmem])
              have hv := hbl (c1 :: c2 :: c3 :: c4 :: c5 :: tail)
                (List.mem_cons_self _ _) hm
              simp only [List.drop] at hv
              show hostScan T HState.start (c1 :: c2 :: c3 :: c4 :: c5 :: tail) =
                subLine T (c1 :: c2 :: c3 :: c4 :: c5 :: tail)
              rw [hostScan_start_hostline_last h5 hn hv, subLine_of_match h5]
      | cons m ts =>
          have hihyp := ih (by simp)
            (fun x hx => hnl x (List.mem_cons_of_mem l hx))
            (fun x hx => hbl x (List.mem_cons_of_mem l hx))
          rw [joinNL_cons_cons]
          have hmapjoin : joinNL ((l :: m :: ts).map (subLine T)) =
              subLine T l ++ '\n' :: joinNL ((m :: ts).map (subLine T)) := by
            simp only [List.map_cons]
            exact joinNL_cons_cons _ _ _
          rw [hmapjoin]
          cases hm : hostMatch5 l with
          | false =>
              rw [hostScan_start_nomatch_line (joinNL (m :: ts)) hm (hnl l (by simp))]
              rw [hihyp, subLine_of_nomatch hm]
          | true =>
              obtain ⟨c1, c2, c3, c4, c5, tail, rfl, h5⟩ := hostMatch5_shape hm
              have hn : '\n' ∉ tail := fun hmem =>
                hnl (c1 :: c2 :: c3 :: c4 :: c5 :: tail)
                  (List.mem_cons_self _ _) (by simp [hmem])
              have hv := hbl (c1 :: c2 :: c3 :: c4 :: c5 :: tail)
                (List.mem_cons_self _ _) hm
              simp only [List.drop] at hv
              rw [hostScan_start_hostline_mid h5 hn hv, hihyp, subLine_of_match h5]

/-- Identity of the substitution pass on templates without any `Host:`
line. -/
theorem hostScan_id_of_noHost (T : List Char) {lines : List (List Char)}
    (hne : lines ≠ []) (hnl : ∀ l ∈ lines, '\n' ∉ l)
    (hnh : ∀ l ∈ lines, hostMatch5 l = false) :
    hostScan T HState.start (joinNL lines) = joinNL lines := by
  have := hostScan_lines T lines hne hnl
    (fun l hl hm => absurd hm (by simp [hnh l hl]))
  rw [this]
  have hmap : lines.map (subLine T) = lines :=
    List.map_congr_left (fun l hl => subLine_of_nomatch (hnh l hl)) |>.trans
      (List.map_id lines)
  rw [hmap]

/-! ## Lemmas: the full rewriter on templates with a single canonical Host line -/

theorem hostMatch5_hostHeader (T : List Char) :
    hostMatch5 (strL "Host: " ++ T) = true := by
  show hostMatch5 ('H' :: 'o' :: 's' :: 't' :: ':' :: ' ' :: T) = true
  rw [hostMatch5_cons5]
  decide

theorem noNL_hostHeader {T : List Char} (hT : '\n' ∉ T) :
    '\n' ∉ strL "Host: " ++ T := by
  intro hmem
  rcases List.mem_append.mp hmem with h | h
  · exact absurd h (by decide)
  · exact hT h

theorem subLine_hostHeader {T : List Char} {c : Char} {v : List Char}
    (hc : isSpace c = false) :
    subLine T (strL "Host: " ++ (c :: v)) = strL "Host: " ++ T := by
  show subLine T ('H' :: 'o' :: 's' :: 't' :: ':' :: ' ' :: c :: v) =
    'H' :: 'o' :: 's' :: 't' :: ':' :: ' ' :: T
  rw [subLine_of_match (by decide)]
  rw [List.takeWhile_cons_of_pos (by decide), List.takeWhile_cons_of_neg (by simp [hc])]
  rfl

theorem dropBlank_hostHeader {c : Char} {v : List Char} (hc : isSpace c = false) :
    (((strL "Host: " ++ (c :: v)).drop 5).dropWhile isSpace) ≠ [] := by
  show ((' ' :: c :: v).dropWhile isSpace) ≠ []
  rw [List.dropWhile_cons_of_pos (by decide), List.dropWhile_cons_of_neg (by simp [hc])]
  simp

/-- Full behaviour of `replace_host_in_request` on a template without the
placeholder whose lines contain exactly one `Host:`-headed line, written
with the canonical prefix `Host: `, a value starting with a
non-whitespace character and different from the target: the value is
replaced by the target and everything else is untouched. -/
theorem rhir_single_host (tmpl T : List Char) (l1 l2 : List (List Char))
    (c : Char) (v : List Char)
    (hsplit : splitNL tmpl = l1 ++ (strL "Host: " ++ (c :: v)) :: l2)
    (hother : ∀ l ∈ l1 ++ l2, hostMatch5 l = false)
    (hc : isSpace c = false)
    (hvT : c :: v ≠ T)
    (hph : containsSub tmpl phText = false)
    (hT : '\n' ∉ T) :
    replace_host_in_request tmpl T = joinNL (l1 ++ (strL "Host: " ++ T) :: l2) ∧
    splitNL (replace_host_in_request tmpl T) =
      l1 ++ (strL "Host: " ++ T) :: l2 := by
  have hnlAll : ∀ l ∈ l1 ++ (strL "Host: " ++ (c :: v)) :: l2, '\n' ∉ l := by
    intro l hl
    exact noNL_mem_splitNL (hsplit ▸ hl)
  have hblank : ∀ l ∈ l1 ++ (strL "Host: " ++ (c :: v)) :: l2,
      hostMatch5 l = true → (l.drop 5).dropWhile isSpace ≠ [] := by
    intro l hl hm
    rcases List.mem_append.mp hl with h1 | h2
    · exact absurd hm (by simp [hother l (List.mem_append_left l2 h1)])
    · rcases List.mem_cons.mp h2 with rfl | h3
      · exact dropBlank_hostHeader hc
      · exact absurd hm (by simp [hother l (List.mem_append_right l1 h3)])
  have hmap : (l1 ++ (strL "Host: " ++ (c :: v)) :: l2).map (subLine T) =
      l1 ++ (strL "Host: " ++ T) :: l2 := by
    rw [List.map_append, List.map_cons]
    have h1 : l1.map (subLine T) = l1 :=
      (List.map_congr_left fun l hl =>
        subLine_of_nomatch (hother l (List.mem_append_left l2 hl))).trans
        (List.map_id l1)
    have h2 : l2.map (subLine T) = l2 :=
      (List.map_congr_left fun l hl =>
        subLine_of_nomatch (hother l (List.mem_append_right l1 hl))).trans
        (List.map_id l2)
    rw [h1, h2, subLine_hostHeader hc]
  have hmod : hostScan T HState.start tmpl =
      joinNL (l1 ++ (strL "Host: " ++ T) :: l2) := by
    conv_lhs => rw [← joinNL_splitNL tmpl, hsplit]
    rw [hostScan_lines T _ (by simp) hnlAll hblank, hmap]
  have hnlNew : ∀ l ∈ l1 ++ (strL "Host: " ++ T) :: l2, '\n' ∉ l := by
    intro l hl
    rcases List.mem_append.mp hl with h1 | h2
    · exact hnlAll l (List.mem_append_left _ h1)
    · rcases List.mem_cons.mp h2 with rfl | h3
      · exact noNL_hostHeader hT
      · exact hnlAll l (List.mem_append_right _ (List.mem_cons_of_mem _ h3))
  have hsplitNew : splitNL (joinNL (l1 ++ (strL "Host: " ++ T) :: l2)) =
      l1 ++ (strL "Host: " ++ T) :: l2 :=
    splitNL_joinNL (by simp) hnlNew
  have hneq : joinNL (l1 ++ (strL "Host: " ++ T) :: l2) ≠ tmpl := by
    intro he
    have h1 := hsplitNew
    rw [he, hsplit] at h1
    have h2 : (strL "Host: " ++ (c :: v)) :: l2 = (strL "Host: " ++ T) :: l2 :=
      List.append_cancel_left h1
    have h3 : strL "Host: " ++ (c :: v) = strL "Host: " ++ T :=
      (List.cons.injEq _ _ _ _ |>.mp h2).1
    exact hvT (List.append_cancel_left h3)
  have hres : replace_host_in_request tmpl T =
      joinNL (l1 ++ (strL "Host: " ++ T) :: l2) := by
    unfold replace_host_in_request
    rw [if_neg (by simp [hph])]
    show (if hostScan T HState.start tmpl = tmpl then _ else
      hostScan T HState.start tmpl) = _
    rw [hmod, if_neg hneq]
  exact ⟨hres, by rw [hres, hsplitNew]⟩

/-! ## Lemmas: one iteration of the orchestrator loop -/

theorem runIter_spec (e : IterEnv) (i : Nat) (tmpl t : List Char)
    (st : LoopSt) (hfs : st.fs = []) :
    runIter e i tmpl t st =
      ({ stats := ⟨st.stats.total,
            st.stats.successful + (if iterSucc e t then 1 else 0),
            st.stats.failed + (if iterFails e t then 1 else 0)⟩,
         successfulTargets := st.successfulTargets ++ iterSuccList e t,
         tempFiles := st.tempFiles ++ (if reachesCreate e t then [i] else []),
         fs := if leavesTemp e t then [i] else [],
         written := st.written ++
           (if reachesCreate e t then [(i, replace_host_in_request tmpl t)] else []),
         log := st.log ++ iterTrace e i t },
       iterInterrupts e t) := by
  obtain ⟨⟨tot, suc, fl⟩, stg, tf, fs0, wr, lg⟩ := st
  replace hfs : fs0 = [] := hfs
  subst hfs
  rcases e with ⟨ro, tb, sc⟩
  cases hcol : t.contains ':' with
  | false =>
      have hmem : ¬(':' ∈ t) := by simpa using hcol
      simp [runIter, iterSucc, iterFails, iterInterrupts, reachesCreate,
        reachesScan, leavesTemp, iterSuccList, iterTrace, addFailed, hmem]
  | true =>
      have hmem : ':' ∈ t := by simpa using hcol
      cases ro with
      | false =>
          simp [runIter, iterSucc, iterFails, iterInterrupts, reachesCreate,
            reachesScan, leavesTemp, iterSuccList, iterTrace, addFailed, hmem]
      | true =>
          cases tb with
          | errors =>
              simp [runIter, iterSucc, iterFails, iterInterrupts, reachesCreate,
                reachesScan, leavesTemp, iterSuccList, iterTrace, addFailed,
                createTemp, hmem]
          | keyboard =>
              simp [runIter, iterSucc, iterFails, iterInterrupts, reachesCreate,
                reachesScan, leavesTemp, iterSuccList, iterTrace, addFailed,
                createTemp, hmem]
          | ok =>
              cases sc with
              | keyboard =>
                  simp [runIter, iterSucc, iterFails, iterInterrupts,
                    reachesCreate, reachesScan, leavesTemp, iterSuccList,
                    iterTrace, addFailed, createTemp, cleanupFile,
                    unlinkIfExists, hmem]
              | errors =>
                  simp [runIter, iterSucc, iterFails, iterInterrupts,
                    reachesCreate, reachesScan, leavesTemp, iterSuccList,
                    iterTrace, addFailed, createTemp, cleanupFile,
                    unlinkIfExists, hmem]
              | completes rc out =>
                  by_cases hsig : ((analyze_sqlmap_output out).injection_detected = true ∨
                      (analyze_sqlmap_output out).db_fingerprint = true)
                  · simp only [runIter, iterSucc, iterFails, iterInterrupts,
                      reachesCreate, reachesScan, leavesTemp, iterSuccList,
                      iterTrace, addFailed, createTemp, cleanupFile,
                      unlinkIfExists]
                    simp [hmem, hsig]
                    intro hfalse
                    rcases hsig with h1 | h1
                    · rw [hfalse] at h1; cases h1
                    · exact h1
                  · obtain ⟨h1, h2⟩ := not_or.mp hsig
                    rw [Bool.not_eq_true] at h1 h2
                    simp [runIter, iterSucc, iterFails, iterInterrupts,
                      reachesCreate, reachesScan, leavesTemp, iterSuccList,
                      iterTrace, addFailed, createTemp, cleanupFile,
                      unlinkIfExists, hmem, h1, h2]

theorem leavesTemp_false_of_no_intr {e : IterEnv} {t : List Char}
    (h : iterInterrupts e t = false) : leavesTemp e t = false := by
  rcases e with ⟨ro, tb, sc⟩
  cases tb <;> simp_all [leavesTemp, iterInterrupts]

theorem iterSucc_false_of_intr {e : IterEnv} {t : List Char}
    (h : iterInterrupts e t = true) : iterSucc e t = false := by
  rcases e with ⟨ro, tb, sc⟩
  cases tb <;> cases sc <;> simp_all [iterSucc, iterInterrupts, reachesScan]

theorem iterFails_false_of_intr {e : IterEnv} {t : List Char}
    (h : iterInterrupts e t = true) : iterFails e t = false := by
  simp [iterFails, h]

theorem reachesCreate_eq_or (e : IterEnv) (t : List Char) :
    reachesCreate e t = (reachesScan e t || leavesTemp e t) := by
  rcases e with ⟨ro, tb, sc⟩
  cases tb <;> simp [reachesCreate, reachesScan, leavesTemp, Bool.and_assoc]

theorem reachesCreate_eq_scan_of_no_intr {e : IterEnv} {t : List Char}
    (h : iterInterrupts e t = false) : reachesCreate e t = reachesScan e t := by
  rw [reachesCreate_eq_or, leavesTemp_false_of_no_intr h, Bool.or_false]

theorem one_of_succ_fails {e : IterEnv} {t : List Char}
    (h : iterInterrupts e t = false) :
    (if iterSucc e t then 1 else 0) + (if iterFails e t then 1 else 0) = 1 := by
  have hfe : iterFails e t = !(iterSucc e t) := by
    simp [iterFails, h]
  rw [hfe]
  cases iterSucc e t <;> simp

theorem bulkLoop_noInterrupt (envs : Nat → IterEnv) (tmpl : List Char) :
    ∀ (ts : List (List Char)) (i : Nat) (st : LoopSt), st.fs = [] →
      (∀ j, j < ts.length →
        iterInterrupts (envs (i + j)) (ts.getD j []) = false) →
      bulkLoop envs tmpl i ts st =
        ({ stats := ⟨st.stats.total,
              st.stats.successful + succCount envs i ts,
              st.stats.failed + failCount envs i ts⟩,
           successfulTargets := st.successfulTargets ++ succListAll envs i ts,
           tempFiles := st.tempFiles ++ createdAll envs i ts,
           fs := [],
           written := st.written ++ writtenAll envs tmpl i ts,
           log := st.log ++ traceAll envs i ts }, false) := by
  intro ts
  induction ts with
  | nil =>
      intro i st hfs _
      obtain ⟨⟨tot, suc, fl⟩, stg, tf, fs0, wr, lg⟩ := st
      replace hfs : fs0 = [] := hfs
      subst hfs
      simp [bulkLoop, succCount, failCount, succListAll, createdAll,
        writtenAll, traceAll]
  | cons t ts ih =>
      intro i st hfs hni
      have h0 : iterInterrupts (envs i) t = false := by
        have := hni 0 (by simp)
        simpa using this
      have hstep := runIter_spec (envs i) i tmpl t st hfs
      show (let r := runIter (envs i) i tmpl t st;
        if r.2 then (r.1, true) else bulkLoop envs tmpl (i + 1) ts r.1) = _
      rw [hstep]
      simp only [h0, if_false]
      rw [ih (i + 1) _ (by simp [leavesTemp_false_of_no_intr h0])
        (fun j hj => by
          have := hni (j + 1) (by simpa using Nat.succ_lt_succ hj)
          simpa [Nat.add_assoc, Nat.add_comm 1 j] using this)]
      simp only [succCount, failCount, succListAll, createdAll, writtenAll,
        traceAll, leavesTemp_false_of_no_intr h0]
      refine Prod.ext ?_ rfl
      simp [Nat.add_assoc, List.append_assoc]

theorem bulkLoop_interrupt (envs : Nat → IterEnv) (tmpl : List Char) :
    ∀ (ts : List (List Char)) (k i : Nat) (st : LoopSt), st.fs = [] →
      k < ts.length →
      (∀ j, j < k → iterInterrupts (envs (i + j)) (ts.getD j []) = false) →
      iterInterrupts (envs (i + k)) (ts.getD k []) = true →
      bulkLoop envs tmpl i ts st =
        ({ stats := ⟨st.stats.total,
              st.stats.successful + succCount envs i (ts.take k),
              st.stats.failed + failCount envs i (ts.take k)⟩,
           successfulTargets := st.successfulTargets ++
             succListAll envs i (ts.take k),
           tempFiles := st.tempFiles ++ createdAll envs i (ts.take k) ++
             (if reachesCreate (envs (i + k)) (ts.getD k [])
              then [i + k] else []),
           fs := if leavesTemp (envs (i + k)) (ts.getD k [])
             then [i + k] else [],
           written := st.written ++ writtenAll envs tmpl i (ts.take k) ++
             (if reachesCreate (envs (i + k)) (ts.getD k [])
              then [(i + k, replace_host_in_request tmpl (ts.getD k []))]
              else []),
           log := st.log ++ traceAll envs i (ts.take k) ++
             iterTrace (envs (i + k)) (i + k) (ts.getD k []) }, true) := by
  intro ts
  induction ts with
  | nil =>
      intro k i st _ hk _ _
      exact absurd hk (by simp)
  | cons t ts ih =>
      intro k i st hfs hk hpre hat
      cases k with
      | zero =>
          have hat0 : iterInterrupts (envs i) t = true := by simpa using hat
          have hstep := runIter_spec (envs i) i tmpl t st hfs
          show (let r := runIter (envs i) i tmpl t st;
            if r.2 then (r.1, true) else bulkLoop envs tmpl (i + 1) ts r.1) = _
          rw [hstep]
          simp only [hat0, if_true]
          refine Prod.ext ?_ rfl
          simp [succCount, failCount, succListAll, createdAll, writtenAll,
            traceAll, iterSucc_false_of_intr hat0, iterFails_false_of_intr hat0,
            iterSuccList, iterSucc_false_of_intr hat0]
      | succ k' =>
          have h0 : iterInterrupts (envs i) t = false := by
            have := hpre 0 (by omega)
            simpa using this
          have hstep := runIter_spec (envs i) i tmpl t st hfs
          show (let r := runIter (envs i) i tmpl t st;
            if r.2 then (r.1, true) else bulkLoop envs tmpl (i + 1) ts r.1) = _
          rw [hstep]
          simp only [h0, if_false]
          have hk' : k' < ts.length := by simpa using Nat.lt_of_succ_lt_succ hk
          have hpre' : ∀ j, j < k' →
              iterInterrupts (envs (i + 1 + j)) (ts.getD j []) = false := by
            intro j hj
            have := hpre (j + 1) (by omega)
            simpa [Nat.add_assoc, Nat.add_comm 1 j] using this
          have hat' : iterInterrupts (envs (i + 1 + k')) (ts.getD k' []) = true := by
            have := hat
            simpa [Nat.add_assoc, Nat.add_comm 1 k'] using this
          rw [ih k' (i + 1) _ (by simp [leavesTemp_false_of_no_intr h0]) hk'
            hpre' hat']
          have hidx : i + 1 + k' = i + (k' + 1) := by omega
          refine Prod.ext ?_ rfl
          simp only [List.take_succ_cons, succCount, failCount, succListAll,
            createdAll, writtenAll, traceAll,
            leavesTemp_false_of_no_intr h0, List.getD_cons_succ, hidx]
          simp [Nat.add_assoc, List.append_assoc]

theorem cleanupFile_of_not_mem {p : Nat} {st : LoopSt}
    (h : st.fs.contains p = false) : cleanupFile p st = st := by
  obtain ⟨s1, s2, s3, fs0, s5, s6⟩ := st
  replace h : fs0.contains p = false := h
  have h' : p ∉ fs0 := by simpa using h
  simp [cleanupFile, unlinkIfExists, h, h']

theorem process_bulk_scan_eq (envs : Nat → IterEnv) (tmpl : List Char)
    (targets : List (List Char)) (hempty : targets.isEmpty = false) :
    process_bulk_scan envs tmpl targets =
      (let r := bulkLoop envs tmpl 0 targets
        ⟨⟨targets.length, 0, 0⟩, [], [], [], [], []⟩
       let stF := outerCleanup r.1.tempFiles r.1
       ⟨stF.stats, stF.successfulTargets, stF.tempFiles, stF.fs, stF.written,
        stF.log, r.2⟩) := by
  unfold process_bulk_scan
  rw [if_neg (by simp [hempty])]

theorem outerCleanup_fs_nil :
    ∀ (tf : List Nat) (st : LoopSt), st.fs = [] → outerCleanup tf st = st := by
  intro tf
  induction tf with
  | nil => intro st _; rfl
  | cons p ps ih =>
      intro st hfs
      show outerCleanup ps (cleanupFile p st) = st
      rw [cleanupFile_of_not_mem (by rw [hfs]; rfl)]
      exact ih st hfs

theorem outerCleanup_fs_single :
    ∀ (tf : List Nat) (p : Nat) (st : LoopSt), st.fs = [p] → p ∈ tf →
      outerCleanup tf st =
        { st with fs := [], log := st.log ++ [Event.deleted p] } := by
  intro tf
  induction tf with
  | nil => intro p st _ hmem; exact absurd hmem (by simp)
  | cons q ps ih =>
      intro p st hfs hmem
      show outerCleanup ps (cleanupFile q st) = _
      by_cases hq : q = p
      · subst hq
        have hcf : cleanupFile q st =
            { st with fs := [], log := st.log ++ [Event.deleted q] } := by
          obtain ⟨s1, s2, s3, fs0, s5, s6⟩ := st
          replace hfs : fs0 = [q] := hfs
          subst hfs
          simp [cleanupFile, unlinkIfExists]
        rw [hcf]
        exact outerCleanup_fs_nil ps _ rfl
      · have hnc : st.fs.contains q = false := by
          rw [hfs]
          simp [hq]
        rw [cleanupFile_of_not_mem hnc]
        have hmem' : p ∈ ps := by
          rcases List.mem_cons.mp hmem with h | h
          · exact absurd h.symm hq
          · exact h
        exact ih p st hfs hmem'

theorem process_bulk_noIntr (envs : Nat → IterEnv) (tmpl : List Char)
    (targets : List (List Char)) (hne : targets ≠ [])
    (hni : ∀ j, j < targets.length →
      iterInterrupts (envs j) (targets.getD j []) = false) :
    process_bulk_scan envs tmpl targets =
      ⟨⟨targets.length, succCount envs 0 targets, failCount envs 0 targets⟩,
        succListAll envs 0 targets, createdAll envs 0 targets, [],
        writtenAll envs tmpl 0 targets, traceAll envs 0 targets, false⟩ := by
  have hloop := bulkLoop_noInterrupt envs tmpl targets 0
    ⟨⟨targets.length, 0, 0⟩, [], [], [], [], []⟩ rfl
    (by intro j hj; simpa using hni j hj)
  have hempty : targets.isEmpty = false := by
    cases targets with
    | nil => exact absurd rfl hne
    | cons a b => rfl
  rw [process_bulk_scan_eq envs tmpl targets hempty]
  simp only [hloop]
  rw [outerCleanup_fs_nil _ _ rfl]
  simp

theorem process_bulk_intr (envs : Nat → IterEnv) (tmpl : List Char)
    (targets : List (List Char)) (k : Nat)
    (hk : k < targets.length)
    (hpre : ∀ j, j < k → iterInterrupts (envs j) (targets.getD j []) = false)
    (hat : iterInterrupts (envs k) (targets.getD k []) = true) :
    process_bulk_scan envs tmpl targets =
      ⟨⟨targets.length, succCount envs 0 (targets.take k),
          failCount envs 0 (targets.take k)⟩,
        succListAll envs 0 (targets.take k),
        createdAll envs 0 (targets.take k) ++
          (if reachesCreate (envs k) (targets.getD k []) then [k] else []),
        [],
        writtenAll envs tmpl 0 (targets.take k) ++
          (if reachesCreate (envs k) (targets.getD k [])
           then [(k, replace_host_in_request tmpl (targets.getD k []))] else []),
        traceAll envs 0 (targets.take k) ++
          iterTrace (envs k) k (targets.getD k []) ++
          (if leavesTemp (envs k) (targets.getD k [])
           then [Event.deleted k] else []),
        true⟩ := by
  have hne : targets ≠ [] := by
    intro he
    rw [he] at hk
    exact absurd hk (by simp)
  have hloop := bulkLoop_interrupt envs tmpl targets k 0
    ⟨⟨targets.length, 0, 0⟩, [], [], [], [], []⟩ rfl hk
    (by intro j hj; simpa using hpre j hj) (by simpa using hat)
  have hempty : targets.isEmpty = false := by
    cases targets with
    | nil => exact absurd rfl hne
    | cons a b => rfl
  rw [process_bulk_scan_eq envs tmpl targets hempty]
  simp only [hloop]
  simp only [Nat.zero_add]
  by_cases hlv : leavesTemp (envs k) (targets.getD k []) = true
  · have hlv2 : leavesTemp (envs k) (targets[k]?.getD []) = true := by
      simpa using hlv
    have hrc : reachesCreate (envs k) (targets.getD k []) = true := by
      rw [reachesCreate_eq_or, hlv, Bool.or_true]
    have hrc2 : reachesCreate (envs k) (targets[k]?.getD []) = true := by
      simpa using hrc
    have hmem : k ∈ ([] : List Nat) ++ createdAll envs 0 (targets.take k) ++
        (if reachesCreate (envs k) (targets.getD k []) then [k] else []) := by
      rw [hrc]
      simp
    rw [outerCleanup_fs_single _ k _ (by simp [hlv, hlv2]) hmem]
    simp [hlv, hlv2]
  · have hlv' : leavesTemp (envs k) (targets.getD k []) = false :=
      Bool.not_eq_true _ |>.mp hlv
    have hlv2 : leavesTemp (envs k) (targets[k]?.getD []) = false := by
      simpa using hlv'
    rw [outerCleanup_fs_nil _ _ (by simp [hlv', hlv2])]
    simp [hlv', hlv2]

theorem mainExitCode_le_one (s : Stats) : mainExitCode s ≤ 1 := by
  unfold mainExitCode
  split <;> omega

/-! ## Lemmas: events appearing in the traces -/

theorem started_of_mem_iterTrace {e : IterEnv} {i : Nat} {t : List Char}
    {j : Nat} {fsS : List Nat}
    (h : Event.started j fsS ∈ iterTrace e i t) : j = i ∧ fsS = [] := by
  rcases List.mem_cons.mp h with heq | hmem
  · exact ⟨(Event.started.injEq _ _ _ _).mp heq |>.1,
      (Event.started.injEq _ _ _ _).mp heq |>.2⟩
  · exfalso
    rcases List.mem_append.mp hmem with h1 | h2
    · rcases List.mem_append.mp h1 with h3 | h4
      · by_cases hc : reachesCreate e t = true <;> simp [hc] at h3
      · by_cases hc : reachesScan e t = true <;> simp [hc] at h4
    · by_cases hc : reachesScan e t = true <;> simp [hc] at h2

theorem started_mem_iterTrace (e : IterEnv) (i : Nat) (t : List Char) :
    Event.started i [] ∈ iterTrace e i t :=
  List.mem_cons_self _ _

theorem started_of_mem_traceAll {envs : Nat → IterEnv} :
    ∀ {ts : List (List Char)} {i j : Nat} {fsS : List Nat},
      Event.started j fsS ∈ traceAll envs i ts →
      i ≤ j ∧ j < i + ts.length ∧ fsS = [] := by
  intro ts
  induction ts with
  | nil => intro i j fsS h; exact absurd h (by simp [traceAll])
  | cons t ts ih =>
      intro i j fsS h
      rcases List.mem_append.mp h with h1 | h2
      · obtain ⟨rfl, rfl⟩ := started_of_mem_iterTrace h1
        exact ⟨le_rfl, by simp, rfl⟩
      · obtain ⟨h3, h4, h5⟩ := ih h2
        exact ⟨by omega, by simp only [List.length_cons]; omega, h5⟩

theorem started_mem_traceAll (envs : Nat → IterEnv) :
    ∀ (ts : List (List Char)) (i j : Nat), j < ts.length →
      Event.started (i + j) [] ∈ traceAll envs i ts := by
  intro ts
  induction ts with
  | nil => intro i j h; exact absurd h (by simp)
  | cons t ts ih =>
      intro i j hj
      cases j with
      | zero =>
          exact List.mem_append_left _ (by simpa using started_mem_iterTrace (envs i) i t)
      | succ j' =>
          refine List.mem_append_right _ ?_
          have := ih (i + 1) j' (by simpa using Nat.lt_of_succ_lt_succ hj)
          have heq : i + 1 + j' = i + (j' + 1) := by omega
          rwa [heq] at this

theorem scanned_of_mem_iterTrace {e : IterEnv} {i : Nat} {t : List Char}
    {j : Nat} (h : Event.scanned j ∈ iterTrace e i t) :
    j = i ∧ reachesScan e t = true := by
  rcases List.mem_cons.mp h with heq | hmem
  · exact absurd heq (by simp)
  · rcases List.mem_append.mp hmem with h1 | h2
    · rcases List.mem_append.mp h1 with h3 | h4
      · exfalso
        by_cases hc : reachesCreate e t = true <;> simp [hc] at h3
      · by_cases hc : reachesScan e t = true
        · simp [hc] at h4
          exact ⟨h4, hc⟩
        · simp [hc] at h4
    · exfalso
      by_cases hc : reachesScan e t = true <;> simp [hc] at h2

theorem scanned_of_mem_traceAll {envs : Nat → IterEnv} :
    ∀ {ts : List (List Char)} {i j : Nat},
      Event.scanned j ∈ traceAll envs i ts →
      ∃ j', j' < ts.length ∧ j = i + j' ∧
        reachesScan (envs (i + j')) (ts.getD j' []) = true := by
  intro ts
  induction ts with
  | nil => intro i j h; exact absurd h (by simp [traceAll])
  | cons t ts ih =>
      intro i j h
      rcases List.mem_append.mp h with h1 | h2
      · obtain ⟨rfl, hs⟩ := scanned_of_mem_iterTrace h1
        exact ⟨0, by simp, by simp, by simpa using hs⟩
      · obtain ⟨j', hj', rfl, hs⟩ := ih h2
        refine ⟨j' + 1, by simpa using Nat.succ_lt_succ hj', by omega, ?_⟩
        have heq : i + (j' + 1) = i + 1 + j' := by omega
        rw [heq]
        simpa using hs

/-! ## Claim C1: interrupt semantics of the orchestrator -/

/-- Claim C1 counterexample: with four valid targets, the first completing
with a MySQL fingerprint and a `KeyboardInterrupt` raised during the
second target's scan, `process_bulk_scan` catches the interrupt and
returns normally with stats `⟨4, 1, 0⟩`; `main`'s normal path then exits
with `mainExitCode = 0`, not 130 as the claim asserts (the
`except KeyboardInterrupt: sys.exit(130)` in `main` is unreachable for
interrupts raised inside the bulk loop, because `process_bulk_scan`
swallows them at line 392). -/
theorem claim_C1_counterexample :
    (process_bulk_scan
      (fun i => if i = 0 then
        ⟨true, TempB.ok, ScanB.completes 0 (strL "the back-end DBMS is MySQL")⟩
        else ⟨true, TempB.ok, ScanB.keyboard⟩)
      (strL "GET / HTTP/1.1\nHost: old\n")
      [strL "a:1", strL "b:2", strL "c:3", strL "d:4"]).interrupted = true ∧
    (process_bulk_scan
      (fun i => if i = 0 then
        ⟨true, TempB.ok, ScanB.completes 0 (strL "the back-end DBMS is MySQL")⟩
        else ⟨true, TempB.ok, ScanB.keyboard⟩)
      (strL "GET / HTTP/1.1\nHost: old\n")
      [strL "a:1", strL "b:2", strL "c:3", strL "d:4"]).stats = ⟨4, 1, 0⟩ ∧
    (process_bulk_scan
      (fun i => if i = 0 then
        ⟨true, TempB.ok, ScanB.completes 0 (strL "the back-end DBMS is MySQL")⟩
        else ⟨true, TempB.ok, ScanB.keyboard⟩)
      (strL "GET / HTTP/1.1\nHost: old\n")
      [strL "a:1", strL "b:2", strL "c:3", strL "d:4"]).fs = [] ∧
    mainExitCode (process_bulk_scan
      (fun i => if i = 0 then
        ⟨true, TempB.ok, ScanB.completes 0 (strL "the back-end DBMS is MySQL")⟩
        else ⟨true, TempB.ok, ScanB.keyboard⟩)
      (strL "GET / HTTP/1.1\nHost: old\n")
      [strL "a:1", strL "b:2", strL "c:3", strL "d:4"]).stats = 0 := by
  decide

/-- Claim C1 (amended): when a `KeyboardInterrupt` escapes the processing
of target `k` (and no earlier iteration was interrupted), no later target
is started, the cleanup pass still runs and leaves no temporary file, the
aggregate statistics and successful-target records reflect exactly the
targets processed before the interrupt (with `total` fixed to the full
target count), and the process exits through `main`'s normal path with
code 0 or 1 (`mainExitCode`), not 130: `process_bulk_scan` catches the
interrupt and returns normally, so `main`'s 130 handler is not reached. -/
theorem claim_C1_amended (envs : Nat → IterEnv) (tmpl : List Char)
    (targets : List (List Char)) (k : Nat)
    (hk : k < targets.length)
    (hpre : ∀ j, j < k → iterInterrupts (envs j) (targets.getD j []) = false)
    (hat : iterInterrupts (envs k) (targets.getD k []) = true) :
    (process_bulk_scan envs tmpl targets).interrupted = true ∧
    (∀ j fsS, Event.started j fsS ∈ (process_bulk_scan envs tmpl targets).log →
      j ≤ k) ∧
    (process_bulk_scan envs tmpl targets).fs = [] ∧
    (process_bulk_scan envs tmpl targets).stats.total = targets.length ∧
    (process_bulk_scan envs tmpl targets).stats.successful =
      succCount envs 0 (targets.take k) ∧
    (process_bulk_scan envs tmpl targets).stats.failed =
      failCount envs 0 (targets.take k) ∧
    (process_bulk_scan envs tmpl targets).successfulTargets =
      succListAll envs 0 (targets.take k) ∧
    mainExitCode (process_bulk_scan envs tmpl targets).stats ≤ 1 := by
  rw [process_bulk_intr envs tmpl targets k hk hpre hat]
  refine ⟨rfl, ?_, rfl, rfl, rfl, rfl, rfl, ?_⟩
  · intro j fsS hmem
    simp only [List.append_assoc] at hmem
    rcases List.mem_append.mp hmem with h1 | h2
    · obtain ⟨-, hlt, -⟩ := started_of_mem_traceAll h1
      have : (targets.take k).length ≤ k := by
        simp [List.length_take]
      omega
    · rcases List.mem_append.mp h2 with h3 | h4
      · obtain ⟨rfl, -⟩ := started_of_mem_iterTrace h3
        exact le_rfl
      · exfalso
        by_cases hc : leavesTemp (envs k) (targets.getD k []) = true <;>
          simp [hc] at h4
  · exact mainExitCode_le_one _

/-- Witness for the amended C1: interrupt in the second of four targets. -/
theorem claim_C1_witness :
    (process_bulk_scan
      (fun i => if i = 0 then
        ⟨true, TempB.ok, ScanB.completes 0 (strL "x")⟩
        else ⟨true, TempB.ok, ScanB.keyboard⟩)
      (strL "GET /\nHost: h\n")
      [strL "a:1", strL "b:2", strL "c:3", strL "d:4"]).interrupted = true ∧
    (∀ j fsS, Event.started j fsS ∈ (process_bulk_scan
      (fun i => if i = 0 then
        ⟨true, TempB.ok, ScanB.completes 0 (strL "x")⟩
        else ⟨true, TempB.ok, ScanB.keyboard⟩)
      (strL "GET /\nHost: h\n")
      [strL "a:1", strL "b:2", strL "c:3", strL "d:4"]).log → j ≤ 1) ∧
    (process_bulk_scan
      (fun i => if i = 0 then
        ⟨true, TempB.ok, ScanB.completes 0 (strL "x")⟩
        else ⟨true, TempB.ok, ScanB.keyboard⟩)
      (strL "GET /\nHost: h\n")
      [strL "a:1", strL "b:2", strL "c:3", strL "d:4"]).fs = [] ∧
    (process_bulk_scan
      (fun i => if i = 0 then
        ⟨true, TempB.ok, ScanB.completes 0 (strL "x")⟩
        else ⟨true, TempB.ok, ScanB.keyboard⟩)
      (strL "GET /\nHost: h\n")
      [strL "a:1", strL "b:2", strL "c:3", strL "d:4"]).stats.total = 4 ∧
    (process_bulk_scan
      (fun i => if i = 0 then
        ⟨true, TempB.ok, ScanB.completes 0 (strL "x")⟩
        else ⟨true, TempB.ok, ScanB.keyboard⟩)
      (strL "GET /\nHost: h\n")
      [strL "a:1", strL "b:2", strL "c:3", strL "d:4"]).stats.successful =
      succCount (fun i => if i = 0 then
        ⟨true, TempB.ok, ScanB.completes 0 (strL "x")⟩
        else ⟨true, TempB.ok, ScanB.keyboard⟩) 0
        ([strL "a:1", strL "b:2", strL "c:3", strL "d:4"].take 1) ∧
    (process_bulk_scan
      (fun i => if i = 0 then
        ⟨true, TempB.ok, ScanB.completes 0 (strL "x")⟩
        else ⟨true, TempB.ok, ScanB.keyboard⟩)
      (strL "GET /\nHost: h\n")
      [strL "a:1", strL "b:2", strL "c:3", strL "d:4"]).stats.failed =
      failCount (fun i => if i = 0 then
        ⟨true, TempB.ok, ScanB.completes 0 (strL "x")⟩
        else ⟨true, TempB.ok, ScanB.keyboard⟩) 0
        ([strL "a:1", strL "b:2", strL "c:3", strL "d:4"].take 1) ∧
    (process_bulk_scan
      (fun i => if i = 0 then
        ⟨true, TempB.ok, ScanB.completes 0 (strL "x")⟩
        else ⟨true, TempB.ok, ScanB.keyboard⟩)
      (strL "GET /\nHost: h\n")
      [strL "a:1", strL "b:2", strL "c:3", strL "d:4"]).successfulTargets =
      succListAll (fun i => if i = 0 then
        ⟨true, TempB.ok, ScanB.completes 0 (strL "x")⟩
        else ⟨true, TempB.ok, ScanB.keyboard⟩) 0
        ([strL "a:1", strL "b:2", strL "c:3", strL "d:4"].take 1) ∧
    mainExitCode (process_bulk_scan
      (fun i => if i = 0 then
        ⟨true, TempB.ok, ScanB.completes 0 (strL "x")⟩
        else ⟨true, TempB.ok, ScanB.keyboard⟩)
      (strL "GET /\nHost: h\n")
      [strL "a:1", strL "b:2", strL "c:3", strL "d:4"]).stats ≤ 1 :=
  claim_C1_amended
    (fun i => if i = 0 then
      ⟨true, TempB.ok, ScanB.completes 0 (strL "x")⟩
      else ⟨true, TempB.ok, ScanB.keyboard⟩)
    (strL "GET /\nHost: h\n")
    [strL "a:1", strL "b:2", strL "c:3", strL "d:4"] 1
    (by decide)
    (by
      intro j hj
      interval_cases j
      decide)
    (by decide)

/-! ## Claim C4: the per-target success criterion -/

/-- Claim C4: for a target whose iteration reaches the scan and whose scan
invocation completes with exit code `rc` and output `out`, the target is
counted successful if and only if the classifier reports
`injection_detected` or `db_fingerprint`; in particular a zero exit code
with neither signal increments `failed`, never `successful`.  (The
iteration is examined at an empty temporary-file system, which claim C2
shows is the state every iteration starts in.) -/
theorem claim_C4 (e : IterEnv) (i : Nat) (tmpl t : List Char) (st : LoopSt)
    (rc : Int) (out : List Char)
    (hfs : st.fs = [])
    (hscan : e.scan = ScanB.completes rc out)
    (hcol : t.contains ':' = true) (hro : e.rewriteOk = true)
    (htb : e.tempB = TempB.ok) :
    (runIter e i tmpl t st).2 = false ∧
    (runIter e i tmpl t st).1.stats.successful =
      st.stats.successful +
        (if (analyze_sqlmap_output out).injection_detected ||
            (analyze_sqlmap_output out).db_fingerprint then 1 else 0) ∧
    (runIter e i tmpl t st).1.stats.failed =
      st.stats.failed +
        (if (analyze_sqlmap_output out).injection_detected ||
            (analyze_sqlmap_output out).db_fingerprint then 0 else 1) ∧
    (runIter e i tmpl t st).1.successfulTargets =
      st.successfulTargets ++
        (if (analyze_sqlmap_output out).injection_detected ||
            (analyze_sqlmap_output out).db_fingerprint
         then [⟨t, (analyze_sqlmap_output out).injection_detected,
               (analyze_sqlmap_output out).db_type,
               (analyze_sqlmap_output out).db_version⟩] else []) ∧
    (rc = 0 → (analyze_sqlmap_output out).injection_detected = false →
      (analyze_sqlmap_output out).db_fingerprint = false →
      (runIter e i tmpl t st).1.stats.successful = st.stats.successful ∧
      (runIter e i tmpl t st).1.stats.failed = st.stats.failed + 1) := by
  rcases e with ⟨ro, tb, sc⟩
  cases hscan
  cases htb
  cases hro
  rw [runIter_spec _ i tmpl t st hfs]
  have hmem : ':' ∈ t := by simpa using hcol
  have hsu : iterSucc ⟨true, TempB.ok, ScanB.completes rc out⟩ t =
      ((analyze_sqlmap_output out).injection_detected ||
        (analyze_sqlmap_output out).db_fingerprint) := by
    simp [iterSucc, reachesScan, hmem]
  have hit : iterInterrupts ⟨true, TempB.ok, ScanB.completes rc out⟩ t = false := by
    simp [iterInterrupts, hmem]
  have hfl : iterFails ⟨true, TempB.ok, ScanB.completes rc out⟩ t =
      !((analyze_sqlmap_output out).injection_detected ||
        (analyze_sqlmap_output out).db_fingerprint) := by
    rw [iterFails, hit, hsu]
    simp
  refine ⟨hit, ?_, ?_, ?_, ?_⟩
  · rw [hsu]
  · rw [hfl]
    cases hb : ((analyze_sqlmap_output out).injection_detected ||
      (analyze_sqlmap_output out).db_fingerprint) <;> simp
  · rw [iterSuccList, hsu]
  · intro _ h1 h2
    constructor
    · rw [hsu, h1, h2]
      simp
    · rw [hfl, h1, h2]
      simp

/-- Witness for C4: a completed scan with exit code 0 and no classifier
signal is counted failed. -/
theorem claim_C4_witness :
    (runIter ⟨true, TempB.ok, ScanB.completes 0 (strL "no findings")⟩ 0
      (strL "GET /\nHost: h\n") (strL "a:1")
      ⟨⟨1, 0, 0⟩, [], [], [], [], []⟩).1.stats.successful = 0 ∧
    (runIter ⟨true, TempB.ok, ScanB.completes 0 (strL "no findings")⟩ 0
      (strL "GET /\nHost: h\n") (strL "a:1")
      ⟨⟨1, 0, 0⟩, [], [], [], [], []⟩).1.stats.failed = 0 + 1 :=
  (claim_C4 ⟨true, TempB.ok, ScanB.completes 0 (strL "no findings")⟩ 0
    (strL "GET /\nHost: h\n") (strL "a:1") ⟨⟨1, 0, 0⟩, [], [], [], [], []⟩
    0 (strL "no findings") rfl rfl (by decide) rfl rfl).2.2.2.2 rfl
    (by decide) (by decide)

theorem getD_take_of_lt {ts : List (List Char)} {k j : Nat} (h : j < k) :
    (ts.take k).getD j [] = ts.getD j [] := by
  unfold List.getD
  rw [List.get?_take h]

theorem scanned_mem_traceAll (envs : Nat → IterEnv) :
    ∀ (ts : List (List Char)) (i j : Nat), j < ts.length →
      reachesScan (envs (i + j)) (ts.getD j []) = true →
      Event.scanned (i + j) ∈ traceAll envs i ts := by
  intro ts
  induction ts with
  | nil => intro i j h; exact absurd h (by simp)
  | cons t ts ih =>
      intro i j hj hs
      cases j with
      | zero =>
          refine List.mem_append_left _ ?_
          refine List.mem_cons_of_mem _ ?_
          refine List.mem_append_left _ (List.mem_append_right _ ?_)
          have hs0 : reachesScan (envs i) t = true := by simpa using hs
          simp [hs0]
      | succ j' =>
          refine List.mem_append_right _ ?_
          have hs' : reachesScan (envs (i + 1 + j')) (ts.getD j' []) = true := by
            have heq : i + 1 + j' = i + (j' + 1) := by omega
            rw [heq]
            simpa using hs
          have := ih (i + 1) j' (by simpa using Nat.lt_of_succ_lt_succ hj) hs'
          have heq : i + 1 + j' = i + (j' + 1) := by omega
          rwa [heq] at this

theorem reachesScan_contains {e : IterEnv} {t : List Char}
    (h : reachesScan e t = true) : t.contains ':' = true := by
  unfold reachesScan at h
  rcases Bool.and_eq_true_iff.mp h with ⟨h1, -⟩
  rcases Bool.and_eq_true_iff.mp h1 with ⟨h2, -⟩
  exact h2

theorem iterSucc_false_of_malformed {e : IterEnv} {t : List Char}
    (h : t.contains ':' = false) : iterSucc e t = false := by
  rcases e with ⟨ro, tb, sc⟩
  cases tb <;> cases sc <;> simp_all [iterSucc, reachesScan]

theorem iterInterrupts_false_of_malformed {e : IterEnv} {t : List Char}
    (h : t.contains ':' = false) : iterInterrupts e t = false := by
  rcases e with ⟨ro, tb, sc⟩
  cases tb <;> cases sc <;> simp_all [iterInterrupts]

theorem succ_add_fail_eq_length (envs : Nat → IterEnv) :
    ∀ (ts : List (List Char)) (i : Nat),
      (∀ j, j < ts.length → iterInterrupts (envs (i + j)) (ts.getD j []) = false) →
      succCount envs i ts + failCount envs i ts = ts.length := by
  intro ts
  induction ts with
  | nil => intro i _; rfl
  | cons t ts ih =>
      intro i hni
      have h0 : iterInterrupts (envs i) t = false := by
        have := hni 0 (by simp)
        simpa using this
      have hrest : ∀ j, j < ts.length →
          iterInterrupts (envs (i + 1 + j)) (ts.getD j []) = false := by
        intro j hj
        have := hni (j + 1) (by simpa using Nat.succ_lt_succ hj)
        have heq : i + 1 + j = i + (j + 1) := by omega
        rw [heq]
        simpa using this
      have h1 := one_of_succ_fails h0
      simp only [succCount, failCount, List.length_cons]
      have h2 := ih (i + 1) hrest
      omega

theorem failCount_ge_one (envs : Nat → IterEnv) :
    ∀ (ts : List (List Char)) (i m : Nat), m < ts.length →
      iterFails (envs (i + m)) (ts.getD m []) = true →
      1 ≤ failCount envs i ts := by
  intro ts
  induction ts with
  | nil => intro i m h; exact absurd h (by simp)
  | cons t ts ih =>
      intro i m hm hf
      cases m with
      | zero =>
          have hf0 : iterFails (envs i) t = true := by simpa using hf
          simp only [failCount, hf0, if_true]
          omega
      | succ m' =>
          have hf' : iterFails (envs (i + 1 + m')) (ts.getD m' []) = true := by
            have heq : i + 1 + m' = i + (m' + 1) := by omega
            rw [heq]
            simpa using hf
          have := ih (i + 1) m' (by simpa using Nat.lt_of_succ_lt_succ hm) hf'
          simp only [failCount]
          omega

theorem count_created_iterTrace (e : IterEnv) (i : Nat) (t : List Char) (p : Nat) :
    (iterTrace e i t).count (Event.created p) =
      if reachesCreate e t = true ∧ p = i then 1 else 0 := by
  by_cases hc : reachesCreate e t = true <;>
    by_cases hs : reachesScan e t = true <;>
    by_cases hp : p = i <;>
    simp [iterTrace, hc, hs, hp, List.count_cons, List.count_append]

theorem count_deleted_iterTrace (e : IterEnv) (i : Nat) (t : List Char) (p : Nat) :
    (iterTrace e i t).count (Event.deleted p) =
      if reachesScan e t = true ∧ p = i then 1 else 0 := by
  by_cases hc : reachesCreate e t = true <;>
    by_cases hs : reachesScan e t = true <;>
    by_cases hp : p = i <;>
    simp [iterTrace, hc, hs, hp, List.count_cons, List.count_append]

theorem counts_eq_traceAll (envs : Nat → IterEnv) :
    ∀ (ts : List (List Char)) (i : Nat),
      (∀ j, j < ts.length → iterInterrupts (envs (i + j)) (ts.getD j []) = false) →
      ∀ p, (traceAll envs i ts).count (Event.deleted p) =
        (traceAll envs i ts).count (Event.created p) := by
  intro ts
  induction ts with
  | nil => intro i _ p; rfl
  | cons t ts ih =>
      intro i hni p
      have h0 : iterInterrupts (envs i) t = false := by
        have := hni 0 (by simp)
        simpa using this
      have hrest : ∀ j, j < ts.length →
          iterInterrupts (envs (i + 1 + j)) (ts.getD j []) = false := by
        intro j hj
        have := hni (j + 1) (by simpa using Nat.succ_lt_succ hj)
        have heq : i + 1 + j = i + (j + 1) := by omega
        rw [heq]
        simpa using this
      simp only [traceAll, List.count_append]
      rw [count_created_iterTrace, count_deleted_iterTrace, ih (i + 1) hrest p,
        reachesCreate_eq_scan_of_no_intr h0]

theorem firstIntr_none_spec (envs : Nat → IterEnv) :
    ∀ (ts : List (List Char)) (i : Nat), firstIntr envs i ts = none →
      ∀ j, j < ts.length → iterInterrupts (envs (i + j)) (ts.getD j []) = false := by
  intro ts
  induction ts with
  | nil => intro i _ j hj; exact absurd hj (by simp)
  | cons t ts ih =>
      intro i hfi j hj
      unfold firstIntr at hfi
      by_cases h0 : iterInterrupts (envs i) t = true
      · rw [if_pos h0] at hfi; cases hfi
      · have h0' : iterInterrupts (envs i) t = false := Bool.not_eq_true _ |>.mp h0
        rw [if_neg (by simp [h0'])] at hfi
        cases j with
        | zero => simpa using h0'
        | succ j' =>
            have := ih (i + 1) hfi j' (by simpa using Nat.lt_of_succ_lt_succ hj)
            have heq : i + 1 + j' = i + (j' + 1) := by omega
            rw [heq] at this
            simpa using this

theorem firstIntr_some_spec (envs : Nat → IterEnv) :
    ∀ (ts : List (List Char)) (i k : Nat), firstIntr envs i ts = some k →
      i ≤ k ∧ k - i < ts.length ∧
      iterInterrupts (envs k) (ts.getD (k - i) []) = true ∧
      ∀ j, j < k - i → iterInterrupts (envs (i + j)) (ts.getD j []) = false := by
  intro ts
  induction ts with
  | nil => intro i k h; cases h
  | cons t ts ih =>
      intro i k hfi
      unfold firstIntr at hfi
      by_cases h0 : iterInterrupts (envs i) t = true
      · rw [if_pos h0] at hfi
        cases hfi
        refine ⟨le_rfl, by simp, by simpa using h0, ?_⟩
        intro j hj
        omega
      · have h0' : iterInterrupts (envs i) t = false := Bool.not_eq_true _ |>.mp h0
        rw [if_neg (by simp [h0'])] at hfi
        obtain ⟨hik, hlen, hat, hpre⟩ := ih (i + 1) k hfi
        refine ⟨by omega, ?_, ?_, ?_⟩
        · simp only [List.length_cons]
          omega
        · have heq : k - i = (k - (i + 1)) + 1 := by omega
          rw [heq]
          simpa using hat
        · intro j hj
          cases j with
          | zero => simpa using h0'
          | succ j' =>
              have := hpre j' (by omega)
              have heq : i + 1 + j' = i + (j' + 1) := by omega
              rw [heq] at this
              simpa using this

/-! ## Lemmas: literal placeholder replacement -/

theorem containsSub_of_startsWith {s pat : List Char}
    (h : startsWithL pat s = true) : containsSub s pat = true := by
  cases s with
  | nil => simp [containsSub, h]
  | cons c cs => simp [containsSub, h]

theorem phText_border_free :
    ∀ k : Fin 12, 0 < k.val →
      List.drop (12 - k.val) phText ≠ List.take k.val phText := by
  decide

theorem startsWithL_of_append_long {p s x : List Char}
    (h : startsWithL p (s ++ x) = true) (hlen : p.length ≤ s.length) :
    startsWithL p s = true := by
  obtain ⟨u, hu⟩ := startsWithL_iff.mp h
  have htake : (s ++ x).take p.length = p := by
    rw [hu, List.take_left]
  rw [List.take_append_of_le_length hlen] at htake
  refine startsWithL_iff.mpr ⟨s.drop p.length, ?_⟩
  conv_lhs => rw [← List.take_append_drop p.length s, htake]

theorem phText_no_spanning {s t : List Char} (hs : s ≠ [])
    (hc : containsSub s phText = false) :
    startsWithL phText (s ++ phText ++ t) = false := by
  by_contra hsw
  rw [Bool.not_eq_false] at hsw
  have hsl : 0 < s.length := List.length_pos.mpr hs
  have hlen12 : phText.length = 12 := by decide
  rcases Nat.lt_or_ge s.length 12 with hlt | hge
  · obtain ⟨u, hu⟩ := startsWithL_iff.mp hsw
    have htake : phText = s ++ (phText.take (12 - s.length)) := by
      have h1 : (phText ++ u).take 12 = phText := by
        rw [List.take_append_of_le_length (by rw [hlen12])]
        exact List.take_of_length_le (by rw [hlen12])
      rw [← hu] at h1
      rw [List.append_assoc, List.take_append_eq_append_take,
        List.take_of_length_le (by omega)] at h1
      rw [List.take_append_of_le_length (by rw [hlen12]; omega)] at h1
      exact h1.symm
    have hk0 : 0 < 12 - s.length := by omega
    have hk12 : 12 - s.length < 12 := by omega
    have hdrop : phText.drop (12 - (12 - s.length)) =
        phText.take (12 - s.length) := by
      have hsl2 : 12 - (12 - s.length) = s.length := by omega
      rw [hsl2]
      conv_lhs => rw [htake]
      rw [List.drop_left]
    exact phText_border_free ⟨12 - s.length, hk12⟩ hk0 hdrop
  · have hsw' : startsWithL phText (s ++ (phText ++ t)) = true := by
      rw [← List.append_assoc]
      exact hsw
    have h1 : startsWithL phText s = true :=
      startsWithL_of_append_long hsw' (by omega)
    rw [containsSub_of_startsWith h1] at hc
    cases hc

theorem phReplace_pos {T : List Char} {c : Char} {cs : List Char}
    (h : startsWithL phText (c :: cs) = true) :
    phReplace T (c :: cs) = T ++ phReplace T ((c :: cs).drop 12) := by
  obtain ⟨u, hu⟩ := startsWithL_iff.mp h
  have hcs : cs = '\x7b' :: 'H' :: 'o' :: 's' :: 't' :: 'n' :: 'a' :: 'm' ::
      'e' :: '\x7d' :: '\x7d' :: u := by
    have := hu
    injection this with h1 h2
  subst hcs
  simp only [phReplace, if_pos h]
  rfl

theorem phReplace_neg {T : List Char} {c : Char} {cs : List Char}
    (h : startsWithL phText (c :: cs) = false) :
    phReplace T (c :: cs) = c :: phReplace T cs := by
  rw [phReplace.eq_def]
  simp [h]

theorem phReplace_append {T : List Char} :
    ∀ {a : List Char} (b : List Char), containsSub a phText = false →
      phReplace T (a ++ phText ++ b) = a ++ T ++ phReplace T b := by
  intro a
  induction a with
  | nil =>
      intro b _
      rw [List.nil_append, List.nil_append]
      have hsw : startsWithL phText (phText ++ b) = true :=
        startsWithL_append_self phText b
      have hpos : phReplace T (phText ++ b) =
          T ++ phReplace T ((phText ++ b).drop 12) := phReplace_pos hsw
      rw [hpos]
      have hdrop : (phText ++ b).drop 12 = b := by
        have h12 : phText.length = 12 := by decide
        rw [← h12, List.drop_left]
      rw [hdrop]
  | cons c a' ih =>
      intro b hc
      have hparts : startsWithL phText (c :: a') = false ∧
          containsSub a' phText = false := by
        have := hc
        unfold containsSub at this
        rcases Bool.or_eq_false_iff.mp this with ⟨h1, h2⟩
        exact ⟨h1, h2⟩
      have hnosw : startsWithL phText (c :: (a' ++ phText ++ b)) = false :=
        phText_no_spanning (List.cons_ne_nil c a') hc
      show phReplace T (c :: (a' ++ phText ++ b)) =
        c :: (a' ++ T ++ phReplace T b)
      rw [phReplace_neg hnosw, ih b hparts.2]

theorem phReplace_id {T : List Char} :
    ∀ {b : List Char}, containsSub b phText = false → phReplace T b = b := by
  intro b
  induction b with
  | nil => intro _; rfl
  | cons c cs ih =>
      intro hc
      have hparts : startsWithL phText (c :: cs) = false ∧
          containsSub cs phText = false := by
        have := hc
        unfold containsSub at this
        rcases Bool.or_eq_false_iff.mp this with ⟨h1, h2⟩
        exact ⟨h1, h2⟩
      rw [phReplace_neg hparts.1, ih hparts.2]

/-! ## Claim C5: placeholder substitution -/

/-- Claim C5: for every template of the form `a ++ placeholder ++ b` whose
part `a` is free of the placeholder (so the displayed occurrence is the
first one) and every target `T`, the rewriter takes the placeholder
branch and returns the template with the occurrence replaced by `T`
verbatim and the scan continued on `b` only — no Host-header processing
happens; when `b` has no further occurrence the result is exactly
`a ++ T ++ b`.  Substitution is literal `str.replace`, so targets such as
`8.8.8.8:443` are never interpreted as pattern or backreference syntax. -/
theorem claim_C5 (a b T : List Char) (ha : containsSub a phText = false) :
    containsSub (a ++ phText ++ b) phText = true ∧
    replace_host_in_request (a ++ phText ++ b) T = a ++ T ++ phReplace T b ∧
    (containsSub b phText = false →
      replace_host_in_request (a ++ phText ++ b) T = a ++ T ++ b) := by
  have hct : containsSub (a ++ phText ++ b) phText = true :=
    containsSub_append_of_mid a phText b
  have hres : replace_host_in_request (a ++ phText ++ b) T =
      a ++ T ++ phReplace T b := by
    unfold replace_host_in_request
    rw [if_pos (by simpa using hct)]
    exact phReplace_append b ha
  refine ⟨hct, hres, fun hb => ?_⟩
  rw [hres, phReplace_id hb]

/-- Witness for C5 at a concrete template and the target `8.8.8.8:443`. -/
theorem claim_C5_witness :
    containsSub (strL "GET /" ++ phText ++ strL " HTTP/1.1") phText = true ∧
    replace_host_in_request (strL "GET /" ++ phText ++ strL " HTTP/1.1")
        (strL "8.8.8.8:443") =
      strL "GET /" ++ strL "8.8.8.8:443" ++
        phReplace (strL "8.8.8.8:443") (strL " HTTP/1.1") ∧
    replace_host_in_request (strL "GET /" ++ phText ++ strL " HTTP/1.1")
        (strL "8.8.8.8:443") =
      strL "GET /" ++ strL "8.8.8.8:443" ++ strL " HTTP/1.1" := by
  have h := claim_C5 (strL "GET /") (strL " HTTP/1.1") (strL "8.8.8.8:443")
    (by decide)
  exact ⟨h.1, h.2.1, h.2.2 (by decide)⟩

/-! ## Lemmas: header insertion -/

theorem fipGo_findIdx (ls : List (List Char)) :
    ∀ i : Nat, fipGo i ls =
      match List.findIdx? lineQualifies ls with
      | some j => i + j
      | none => 1 := by
  induction ls with
  | nil => intro i; rfl
  | cons l t ih =>
      intro i
      by_cases hq : lineQualifies l = true
      · have hq2 : ((l.contains ':' && !startsWithL (strL "HTTP/") (stripL l)) ||
            decide (stripL l = [])) = true := hq
        have hfi : List.findIdx? lineQualifies (l :: t) = some 0 := by
          rw [List.findIdx?_cons, if_pos hq]
        rw [hfi]
        unfold fipGo
        rcases Bool.or_eq_true_iff.mp hq2 with h1 | h2
        · rw [if_pos h1]
          simp
        · by_cases h1 : (l.contains ':' &&
              !startsWithL (strL "HTTP/") (stripL l)) = true
          · rw [if_pos h1]
            simp
          · rw [if_neg h1, if_pos (of_decide_eq_true h2)]
            simp
      · have hq' : lineQualifies l = false := Bool.not_eq_true _ |>.mp hq
        have hq2 : ((l.contains ':' && !startsWithL (strL "HTTP/") (stripL l)) ||
            decide (stripL l = [])) = false := hq'
        obtain ⟨h1, h2⟩ := Bool.or_eq_false_iff.mp hq2
        have h2' : ¬(stripL l = []) := of_decide_eq_false h2
        have hfi : List.findIdx? lineQualifies (l :: t) =
            (List.findIdx? lineQualifies t).map (fun j => j + 1) := by
          rw [List.findIdx?_cons, if_neg (by simp [hq']), List.findIdx?_succ]
        rw [hfi]
        unfold fipGo
        rw [if_neg (ne_true_of_eq_false h1), if_neg h2', ih (i + 1)]
        cases hf : List.findIdx? lineQualifies t with
        | none => rfl
        | some j =>
            show i + 1 + j = i + (j + 1)
            omega

theorem findInsertPos_eq_spec (lines : List (List Char)) :
    findInsertPos lines = specInsertPos lines := by
  unfold findInsertPos specInsertPos
  rw [fipGo_findIdx]
  cases hf : List.findIdx? lineQualifies (lines.drop 1) with
  | none => rfl
  | some j => simp [Nat.add_comm]

theorem specInsertPos_pos (lines : List (List Char)) : 1 ≤ specInsertPos lines := by
  unfold specInsertPos
  cases List.findIdx? lineQualifies (lines.drop 1) with
  | none => exact le_rfl
  | some j => exact Nat.le_add_left 1 j

theorem insertAt_ne_nil (n : Nat) (x : List Char) (ls : List (List Char)) :
    insertAt n x ls ≠ [] := by
  match n, ls with
  | 0, ls => simp [insertAt]
  | n + 1, [] => simp [insertAt]
  | n + 1, l :: ls => simp [insertAt]

theorem mem_insertAt {x l : List Char} :
    ∀ {n : Nat} {ls : List (List Char)}, l ∈ insertAt n x ls →
      l = x ∨ l ∈ ls := by
  intro n
  induction n with
  | zero =>
      intro ls h
      simp only [insertAt] at h
      rcases List.mem_cons.mp h with rfl | h2
      · exact Or.inl rfl
      · exact Or.inr h2
  | succ m ih =>
      intro ls h
      cases ls with
      | nil =>
          simp only [insertAt, List.mem_singleton] at h
          exact Or.inl h
      | cons a ls' =>
          simp only [insertAt] at h
          rcases List.mem_cons.mp h with rfl | h2
          · exact Or.inr (List.mem_cons_self _ _)
          · rcases ih h2 with h3 | h3
            · exact Or.inl h3
            · exact Or.inr (List.mem_cons_of_mem a h3)

theorem countP_insertAt (p : List Char → Bool) (x : List Char) :
    ∀ (n : Nat) (ls : List (List Char)),
      (insertAt n x ls).countP p = ls.countP p + (if p x then 1 else 0) := by
  intro n
  induction n with
  | zero =>
      intro ls
      simp only [insertAt, List.countP_cons]
  | succ m ih =>
      intro ls
      cases ls with
      | nil => simp [insertAt, List.countP_cons]
      | cons a ls' =>
          simp only [insertAt, List.countP_cons, ih ls']
          omega

theorem headD_insertAt {x : List Char} {n : Nat} {ls : List (List Char)}
    (hn : 1 ≤ n) (hls : ls ≠ []) :
    (insertAt n x ls).headD [] = ls.headD [] := by
  match n, hn, ls, hls with
  | m + 1, _, a :: ls', _ => simp [insertAt]

/-! ## Claim C6: header synthesis for templates without a Host line -/

/-- Claim C6: for every newline-free target `T` and every template lacking
both the placeholder token and any `Host:`-headed line, the rewriter
inserts exactly one `Host: T` line and leaves the request's first line
unchanged; the code's insertion position agrees with the
spec-side description `specInsertPos` (immediately before the first line
from the second onward that contains a colon and is not the
protocol/version marker, or the first blank line; defaulting to position
1, which for a one-line template appends the header as the second
line). -/
theorem claim_C6 (tmpl T : List Char)
    (hph : containsSub tmpl phText = false)
    (hnh : ∀ l ∈ splitNL tmpl, hostMatch5 l = false)
    (hT : '\n' ∉ T) :
    replace_host_in_request tmpl T =
      joinNL (insertAt (findInsertPos (splitNL tmpl)) (hostHeaderLine T)
        (splitNL tmpl)) ∧
    findInsertPos (splitNL tmpl) = specInsertPos (splitNL tmpl) ∧
    splitNL (replace_host_in_request tmpl T) =
      insertAt (specInsertPos (splitNL tmpl)) (hostHeaderLine T) (splitNL tmpl) ∧
    (splitNL (replace_host_in_request tmpl T)).countP
      (fun l => hostMatch5 l) = 1 ∧
    (splitNL (replace_host_in_request tmpl T)).headD [] =
      (splitNL tmpl).headD [] ∧
    1 ≤ specInsertPos (splitNL tmpl) := by
  have hid : hostScan T HState.start tmpl = tmpl := by
    conv_lhs => rw [← joinNL_splitNL tmpl]
    conv_rhs => rw [← joinNL_splitNL tmpl]
    exact hostScan_id_of_noHost T (splitNL_ne_nil tmpl)
      (fun l hl => noNL_mem_splitNL hl) hnh
  have hres : replace_host_in_request tmpl T =
      joinNL (insertAt (findInsertPos (splitNL tmpl)) (hostHeaderLine T)
        (splitNL tmpl)) := by
    unfold replace_host_in_request
    rw [if_neg (by simp [hph])]
    show (if hostScan T HState.start tmpl = tmpl then _ else
      hostScan T HState.start tmpl) = _
    rw [hid, if_pos rfl]
    rw [if_pos (List.length_pos.mpr (splitNL_ne_nil tmpl))]
  have hnlIns : ∀ l ∈ insertAt (findInsertPos (splitNL tmpl)) (hostHeaderLine T)
      (splitNL tmpl), '\n' ∉ l := by
    intro l hl
    rcases mem_insertAt hl with rfl | h2
    · exact noNL_hostHeader hT
    · exact noNL_mem_splitNL h2
  have hsp : splitNL (replace_host_in_request tmpl T) =
      insertAt (findInsertPos (splitNL tmpl)) (hostHeaderLine T) (splitNL tmpl) := by
    rw [hres]
    exact splitNL_joinNL (insertAt_ne_nil _ _ _) hnlIns
  have hposeq := findInsertPos_eq_spec (splitNL tmpl)
  refine ⟨hres, hposeq, by rw [hsp, hposeq], ?_, ?_, specInsertPos_pos _⟩
  · rw [hsp, countP_insertAt]
    have h0 : (splitNL tmpl).countP (fun l => hostMatch5 l) = 0 := by
      rw [List.countP_eq_zero]
      intro l hl
      simp [hnh l hl]
    rw [h0, if_pos (show hostMatch5 (hostHeaderLine T) = true from
      hostMatch5_hostHeader T)]
  · rw [hsp]
    exact headD_insertAt (hposeq ▸ specInsertPos_pos (splitNL tmpl))
      (splitNL_ne_nil tmpl)

/-- Witness for C6 at a concrete template with headers and a body. -/
theorem claim_C6_witness :
    replace_host_in_request (strL "GET / HTTP/1.1\nUser-Agent: x\n\nbody")
        (strL "h:1") =
      joinNL (insertAt (findInsertPos (splitNL (strL "GET / HTTP/1.1\nUser-Agent: x\n\nbody")))
        (hostHeaderLine (strL "h:1"))
        (splitNL (strL "GET / HTTP/1.1\nUser-Agent: x\n\nbody"))) ∧
    findInsertPos (splitNL (strL "GET / HTTP/1.1\nUser-Agent: x\n\nbody")) =
      specInsertPos (splitNL (strL "GET / HTTP/1.1\nUser-Agent: x\n\nbody")) ∧
    splitNL (replace_host_in_request (strL "GET / HTTP/1.1\nUser-Agent: x\n\nbody")
        (strL "h:1")) =
      insertAt (specInsertPos (splitNL (strL "GET / HTTP/1.1\nUser-Agent: x\n\nbody")))
        (hostHeaderLine (strL "h:1"))
        (splitNL (strL "GET / HTTP/1.1\nUser-Agent: x\n\nbody")) ∧
    (splitNL (replace_host_in_request (strL "GET / HTTP/1.1\nUser-Agent: x\n\nbody")
        (strL "h:1"))).countP (fun l => hostMatch5 l) = 1 ∧
    (splitNL (replace_host_in_request (strL "GET / HTTP/1.1\nUser-Agent: x\n\nbody")
        (strL "h:1"))).headD [] =
      (splitNL (strL "GET / HTTP/1.1\nUser-Agent: x\n\nbody")).headD [] ∧
    1 ≤ specInsertPos (splitNL (strL "GET / HTTP/1.1\nUser-Agent: x\n\nbody")) :=
  claim_C6 (strL "GET / HTTP/1.1\nUser-Agent: x\n\nbody") (strL "h:1")
    (by decide) (by decide) (by decide)

/-! ## Claim C3: rewriting templates that contain a Host line -/

/-- Claim C3 counterexample: the claim asserts that for every template with
a `Host:` line in any letter-case combination the output contains a line
`Host: T`.  For the template `GET / HTTP/1.1\nhost: old.example\n` and
target `1.2.3.4:80` the substitution preserves the lowercase spelling of
the prefix, so no line `Host: 1.2.3.4:80` appears in the output. -/
theorem claim_C3_counterexample :
    replace_host_in_request (strL "GET / HTTP/1.1\nhost: old.example\n")
        (strL "1.2.3.4:80") =
      strL "GET / HTTP/1.1\nhost: 1.2.3.4:80\n" ∧
    (strL "Host: 1.2.3.4:80") ∉
      splitNL (replace_host_in_request (strL "GET / HTTP/1.1\nhost: old.example\n")
        (strL "1.2.3.4:80")) := by
  decide

/-- Claim C3 (amended): for every newline-free target `T` and every
template without the placeholder token whose lines contain exactly one
`Host:`-headed line, written with the exact prefix `Host: ` (that casing,
one space) and a value that starts with a non-whitespace character and
differs from `T`, the rewrite output contains the line `Host: T` and no
other `Host:`-headed line, all other lines being unchanged.  (In general
the original casing and spacing of the prefix are preserved rather than
normalised to `Host: `, as the counterexample shows.) -/
theorem claim_C3_amended (tmpl T : List Char) (l1 l2 : List (List Char))
    (c : Char) (v : List Char)
    (hsplit : splitNL tmpl = l1 ++ (strL "Host: " ++ (c :: v)) :: l2)
    (hother : ∀ l ∈ l1 ++ l2, hostMatch5 l = false)
    (hc : isSpace c = false)
    (hvT : c :: v ≠ T)
    (hph : containsSub tmpl phText = false)
    (hT : '\n' ∉ T) :
    splitNL (replace_host_in_request tmpl T) =
      l1 ++ (strL "Host: " ++ T) :: l2 ∧
    (strL "Host: " ++ T) ∈ splitNL (replace_host_in_request tmpl T) ∧
    (splitNL (replace_host_in_request tmpl T)).countP
      (fun l => hostMatch5 l) = 1 := by
  obtain ⟨-, hs⟩ := rhir_single_host tmpl T l1 l2 c v hsplit hother hc hvT hph hT
  refine ⟨hs, ?_, ?_⟩
  · rw [hs]
    exact List.mem_append_right l1 (List.mem_cons_self _ _)
  · rw [hs, List.countP_append, List.countP_cons]
    have h1 : l1.countP (fun l => hostMatch5 l) = 0 := by
      rw [List.countP_eq_zero]
      intro l hl
      simp [hother l (List.mem_append_left l2 hl)]
    have h2 : l2.countP (fun l => hostMatch5 l) = 0 := by
      rw [List.countP_eq_zero]
      intro l hl
      simp [hother l (List.mem_append_right l1 hl)]
    rw [h1, h2]
    simp [hostMatch5_hostHeader]

/-- Witness for the amended C3 at a concrete template and target. -/
theorem claim_C3_witness :
    splitNL (replace_host_in_request (strL "GET / HTTP/1.1\nHost: old\n")
        (strL "1.2.3.4:80")) =
      [strL "GET / HTTP/1.1"] ++ (strL "Host: " ++ strL "1.2.3.4:80") :: [strL ""] ∧
    (strL "Host: " ++ strL "1.2.3.4:80") ∈
      splitNL (replace_host_in_request (strL "GET / HTTP/1.1\nHost: old\n")
        (strL "1.2.3.4:80")) ∧
    (splitNL (replace_host_in_request (strL "GET / HTTP/1.1\nHost: old\n")
        (strL "1.2.3.4:80"))).countP (fun l => hostMatch5 l) = 1 :=
  claim_C3_amended (strL "GET / HTTP/1.1\nHost: old\n") (strL "1.2.3.4:80")
    [strL "GET / HTTP/1.1"] [strL ""] 'o' (strL "ld")
    (by decide) (by decide) (by decide) (by decide) (by decide) (by decide)

/-! ## Claim C7: line-terminator preservation -/

/-- Claim C7 counterexample: the claim asserts CRLF templates keep CRLF on
every line including the rewritten Host line.  On the CRLF template
`GET / HTTP/1.1\r\nHost: old\r\n\r\n` the `.*` of the substitution regex
consumes the `\r` (which is not `\n`), so the rewritten Host line ends in
a bare `\n` while the other lines keep `\r\n`. -/
theorem claim_C7_counterexample :
    replace_host_in_request (strL "GET / HTTP/1.1\r\nHost: old\r\n\r\n")
        (strL "1.2.3.4:80") =
      strL "GET / HTTP/1.1\r\nHost: 1.2.3.4:80\n\r\n" ∧
    containsSub (replace_host_in_request (strL "GET / HTTP/1.1\r\nHost: old\r\n\r\n")
        (strL "1.2.3.4:80")) (strL "Host: 1.2.3.4:80\r") = false ∧
    containsSub (replace_host_in_request (strL "GET / HTTP/1.1\r\nHost: old\r\n\r\n")
        (strL "1.2.3.4:80")) (strL "Host: 1.2.3.4:80\n") = true := by
  decide

/-- Claim C7 (amended): the rewrite leaves every line it does not touch
byte-identical (so those lines keep whatever terminator style the
template used), but the rewritten `Host:` line does not keep a CRLF
terminator: on a template whose single canonical Host line ends in `\r`
(CRLF style) and a target not ending in `\r`, the output's Host line is
`Host: T` with no trailing `\r`, while the surrounding lines are
unchanged. -/
theorem claim_C7_amended (tmpl T : List Char) (l1 l2 : List (List Char))
    (c : Char) (v : List Char)
    (hsplit : splitNL tmpl = l1 ++ (strL "Host: " ++ (c :: v)) :: l2)
    (hother : ∀ l ∈ l1 ++ l2, hostMatch5 l = false)
    (hc : isSpace c = false)
    (hcr : (c :: v).getLast? = some '\r')
    (hTcr : T.getLast? ≠ some '\r')
    (hph : containsSub tmpl phText = false)
    (hT : '\n' ∉ T) :
    splitNL (replace_host_in_request tmpl T) =
      l1 ++ (strL "Host: " ++ T) :: l2 ∧
    (strL "Host: " ++ (c :: v)).getLast? = some '\r' ∧
    (strL "Host: " ++ T).getLast? ≠ some '\r' := by
  have hvT : c :: v ≠ T := by
    intro he
    rw [he] at hcr
    exact hTcr hcr
  obtain ⟨-, hs⟩ := rhir_single_host tmpl T l1 l2 c v hsplit hother hc hvT hph hT
  refine ⟨hs, ?_, ?_⟩
  · rw [List.getLast?_append_of_ne_nil _ (List.cons_ne_nil c v)]
    exact hcr
  · cases hTe : T with
    | nil => subst hTe; decide
    | cons t0 ts =>
        rw [List.getLast?_append_of_ne_nil _ (List.cons_ne_nil t0 ts)]
        rw [← hTe]
        exact hTcr

/-- Witness for the amended C7 at a concrete CRLF template. -/
theorem claim_C7_witness :
    splitNL (replace_host_in_request (strL "GET / HTTP/1.1\r\nHost: old\r\n\r\n")
        (strL "1.2.3.4:80")) =
      [strL "GET / HTTP/1.1\r"] ++
        (strL "Host: " ++ strL "1.2.3.4:80") :: [strL "\r", strL ""] ∧
    (strL "Host: " ++ ('o' :: strL "ld\r")).getLast? = some '\r' ∧
    (strL "Host: " ++ strL "1.2.3.4:80").getLast? ≠ some '\r' :=
  claim_C7_amended (strL "GET / HTTP/1.1\r\nHost: old\r\n\r\n") (strL "1.2.3.4:80")
    [strL "GET / HTTP/1.1\r"] [strL "\r", strL ""] 'o' (strL "ld\r")
    (by decide) (by decide) (by decide) (by decide) (by decide) (by decide) (by decide)

/-! ## Claim C8: classifier on MySQL fingerprint plus injectable output -/

/-- Claim C8: for every output text containing (case-insensitively, i.e.
after lowering) both the phrase `the back-end DBMS is MySQL` and the
phrase `parameter 'id' is injectable`, the classifier reports
`injection_detected = true`, `db_fingerprint = true` and
`db_type = mysql`. -/
theorem claim_C8 (out : List Char)
    (h1 : containsSub (lowerStr out) (strL "the back-end dbms is mysql") = true)
    (h2 : containsSub (lowerStr out)
      (strL "parameter \x27id\x27 is injectable") = true) :
    (analyze_sqlmap_output out).injection_detected = true ∧
    (analyze_sqlmap_output out).db_fingerprint = true ∧
    (analyze_sqlmap_output out).db_type = some (strL "mysql") := by
  have hgm : gapMatch neNL [strL "parameter", strL "is", strL "injectable"]
      (strL "parameter \x27id\x27 is injectable") = true := by decide
  have hinj : injectionHit (lowerStr out) = true := by
    simp only [injectionHit, Bool.or_eq_true]
    exact Or.inl (Or.inl (Or.inl (reSearch_of_containsSub hgm h2)))
  have hmy : mysqlHit (lowerStr out) = true := by
    simp only [mysqlHit, Bool.or_eq_true]
    exact Or.inr h1
  have hdb : dbDetect (lowerStr out) = some (strL "mysql") := by
    simp [dbDetect, hmy]
  simp [analyze_sqlmap_output, hdb, hinj]

/-- Witness for C8 at a concrete output transcript. -/
theorem claim_C8_witness :
    (analyze_sqlmap_output (strL "[INFO] the back-end DBMS is MySQL\nGET parameter \x27id\x27 is injectable")).injection_detected = true ∧
    (analyze_sqlmap_output (strL "[INFO] the back-end DBMS is MySQL\nGET parameter \x27id\x27 is injectable")).db_fingerprint = true ∧
    (analyze_sqlmap_output (strL "[INFO] the back-end DBMS is MySQL\nGET parameter \x27id\x27 is injectable")).db_type = some (strL "mysql") :=
  claim_C8 (strL "[INFO] the back-end DBMS is MySQL\nGET parameter \x27id\x27 is injectable")
    (by decide) (by decide)

/-! ## Claim C10: the injectable indicator does not exclude negation -/

/-- Claim C10: there is an output containing only the negated statement
`GET parameter 'id' is not injectable` for which the classifier still
reports `injection_detected = true`, because the indicator pattern
`parameter.*is.*injectable` does not exclude intervening negation (here
the gap `.*` matches ` not `). -/
theorem claim_C10 :
    (analyze_sqlmap_output
      (strL "GET parameter \x27id\x27 is not injectable")).injection_detected = true ∧
    containsSub (lowerStr (strL "GET parameter \x27id\x27 is not injectable"))
      (strL "is not injectable") = true ∧
    (analyze_sqlmap_output
      (strL "GET parameter \x27id\x27 is not injectable")).db_fingerprint = false := by
  decide

/-! ## Claim C9: a malformed target fails early and does not abort the batch -/

/-- Claim C9 (lines 299-314): with four targets of which the one at index
`m` lacks the `:` separator, and no interrupt raised anywhere, the run
reports `total = 4`, never invokes the scan runner for the malformed
target, starts all four iterations (the batch is not aborted), counts the
malformed target as failed so that `successful + failed = 4` with at least
one failure, and the successful count is exactly the sum of the
iterations' own independent outcomes. -/
theorem claim_C9 (envs : Nat → IterEnv) (tmpl : List Char)
    (targets : List (List Char)) (m : Nat)
    (hlen : targets.length = 4) (hm : m < 4)
    (hmal : (targets.getD m []).contains ':' = false)
    (hni : ∀ j, j < 4 → iterInterrupts (envs j) (targets.getD j []) = false) :
    (process_bulk_scan envs tmpl targets).stats.total = 4 ∧
    Event.scanned m ∉ (process_bulk_scan envs tmpl targets).log ∧
    (∀ j, j < 4 →
      Event.started j [] ∈ (process_bulk_scan envs tmpl targets).log) ∧
    (process_bulk_scan envs tmpl targets).stats.successful +
      (process_bulk_scan envs tmpl targets).stats.failed = 4 ∧
    iterFails (envs m) (targets.getD m []) = true ∧
    1 ≤ (process_bulk_scan envs tmpl targets).stats.failed ∧
    (process_bulk_scan envs tmpl targets).stats.successful =
      succCount envs 0 targets ∧
    (process_bulk_scan envs tmpl targets).interrupted = false := by
  have hne : targets ≠ [] := by
    intro h
    rw [h] at hlen
    cases hlen
  have hni' : ∀ j, j < targets.length →
      iterInterrupts (envs j) (targets.getD j []) = false := by
    intro j hj
    exact hni j (by omega)
  rw [process_bulk_noIntr envs tmpl targets hne hni']
  have hi1 : iterInterrupts (envs m) (targets.getD m []) = false :=
    iterInterrupts_false_of_malformed hmal
  have hi2 : iterSucc (envs m) (targets.getD m []) = false :=
    iterSucc_false_of_malformed hmal
  have hfm : iterFails (envs m) (targets.getD m []) = true := by
    unfold iterFails
    rw [hi1, hi2]
    rfl
  refine ⟨hlen, ?_, ?_, ?_, hfm, ?_, rfl, rfl⟩
  · intro h
    obtain ⟨j', hj', hEq, hs⟩ := scanned_of_mem_traceAll h
    have hj'm : j' = m := by omega
    subst hj'm
    have hc := reachesScan_contains hs
    simp only [Nat.zero_add] at hc
    rw [hmal] at hc
    cases hc
  · intro j hj
    have := started_mem_traceAll envs targets 0 j (by omega)
    simpa using this
  · have := succ_add_fail_eq_length envs targets 0
      (by intro j hj; simpa using hni' j hj)
    simpa [hlen] using this
  · have := failCount_ge_one envs targets 0 m (by omega)
      (by simpa using hfm)
    simpa using this

/-- Witness for C9: three well-formed targets around a colon-free second
entry, every scan completing without findings. -/
theorem claim_C9_witness :
    (process_bulk_scan (fun _ => ⟨true, TempB.ok, ScanB.completes 0 []⟩)
      (strL "x") [strL "a:1", strL "bad", strL "c:3", strL "d:4"]).stats.total
        = 4 ∧
    Event.scanned 1 ∉ (process_bulk_scan
      (fun _ => ⟨true, TempB.ok, ScanB.completes 0 []⟩)
      (strL "x") [strL "a:1", strL "bad", strL "c:3", strL "d:4"]).log ∧
    1 ≤ (process_bulk_scan (fun _ => ⟨true, TempB.ok, ScanB.completes 0 []⟩)
      (strL "x") [strL "a:1", strL "bad", strL "c:3", strL "d:4"]).stats.failed :=
  ⟨(claim_C9 (fun _ => ⟨true, TempB.ok, ScanB.completes 0 []⟩) (strL "x")
      [strL "a:1", strL "bad", strL "c:3", strL "d:4"] 1
      rfl (by decide) (by decide) (by decide)).1,
   (claim_C9 (fun _ => ⟨true, TempB.ok, ScanB.completes 0 []⟩) (strL "x")
      [strL "a:1", strL "bad", strL "c:3", strL "d:4"] 1
      rfl (by decide) (by decide) (by decide)).2.1,
   (claim_C9 (fun _ => ⟨true, TempB.ok, ScanB.completes 0 []⟩) (strL "x")
      [strL "a:1", strL "bad", strL "c:3", strL "d:4"] 1
      rfl (by decide) (by decide) (by decide)).2.2.2.2.2.1⟩

/-! ## Claim C2: temporary files are deleted exactly once -/

theorem unlinkIfExists_noop {p : Nat} {fs : List Nat} (h : p ∉ fs) :
    unlinkIfExists p fs = fs := by
  have hc : fs.contains p = false := by simpa using h
  simp [unlinkIfExists, hc, h]

theorem scan_leaves_mutex (e : IterEnv) (t : List Char) :
    ¬(reachesScan e t = true ∧ leavesTemp e t = true) := by
  rcases e with ⟨ro, tb, sc⟩
  cases tb <;> simp [reachesScan, leavesTemp]

theorem intr_tail_counts (e : IterEnv) (t : List Char) (i p : Nat) :
    ((if leavesTemp e t then [Event.deleted i] else []).count (Event.deleted p) =
      if leavesTemp e t = true ∧ p = i then 1 else 0) ∧
    ((if leavesTemp e t then [Event.deleted i] else []).count (Event.created p) =
      0) := by
  by_cases hl : leavesTemp e t = true <;> by_cases hp : p = i <;>
    simp [hl, hp, List.count_cons]

/-- Claim C2 (lines 383-401): in every run, each target iteration starts
with no temporary file on disk (so the file created for a target is gone
before the next target starts), the run ends with no temporary file on
disk (the outer batch-end pass removes any leftover, interrupt included),
every created temporary file is deleted exactly as many times as it is
created, and the guarded deletion of an absent file is a no-op. -/
theorem claim_C2 (envs : Nat → IterEnv) (tmpl : List Char)
    (targets : List (List Char)) :
    (∀ i fsS, Event.started i fsS ∈ (process_bulk_scan envs tmpl targets).log →
      fsS = []) ∧
    (process_bulk_scan envs tmpl targets).fs = [] ∧
    (∀ p, ((process_bulk_scan envs tmpl targets).log).count (Event.deleted p) =
      ((process_bulk_scan envs tmpl targets).log).count (Event.created p)) ∧
    (∀ (p : Nat) (fs : List Nat), p ∉ fs → unlinkIfExists p fs = fs) := by
  by_cases hemp : targets.isEmpty = true
  · have htn : targets = [] := by
      cases targets with
      | nil => rfl
      | cons a b => cases hemp
    subst htn
    exact ⟨fun i fsS h => absurd h (by simp [process_bulk_scan]),
      rfl, fun p => rfl, fun p fs h => unlinkIfExists_noop h⟩
  · have hne : targets ≠ [] := by
      cases targets with
      | nil => exact absurd rfl hemp
      | cons a b => simp
    cases hfi : firstIntr envs 0 targets with
    | none =>
        have hni := firstIntr_none_spec envs targets 0 hfi
        have hni' : ∀ j, j < targets.length →
            iterInterrupts (envs j) (targets.getD j []) = false := by
          intro j hj
          simpa using hni j hj
        rw [process_bulk_noIntr envs tmpl targets hne hni']
        refine ⟨?_, rfl, ?_, fun p fs h => unlinkIfExists_noop h⟩
        · intro i fsS h
          exact (started_of_mem_traceAll h).2.2
        · intro p
          exact counts_eq_traceAll envs targets 0
            (by intro j hj; simpa using hni' j hj) p
    | some k =>
        obtain ⟨-, hklen, hat, hpre⟩ := firstIntr_some_spec envs targets 0 k hfi
        simp only [Nat.sub_zero] at hklen hat hpre
        have hpre' : ∀ j, j < k →
            iterInterrupts (envs j) (targets.getD j []) = false := by
          intro j hj
          simpa using hpre j hj
        rw [process_bulk_intr envs tmpl targets k hklen hpre' hat]
        refine ⟨?_, rfl, ?_, fun p fs h => unlinkIfExists_noop h⟩
        · intro i fsS h
          rcases List.mem_append.mp h with h1 | h2
          · rcases List.mem_append.mp h1 with h3 | h4
            · exact (started_of_mem_traceAll h3).2.2
            · exact (started_of_mem_iterTrace h4).2
          · exfalso
            by_cases hl : leavesTemp (envs k) (targets.getD k []) = true <;>
              simp [hl] at h2
        · intro p
          have hpreT : ∀ j, j < (targets.take k).length →
              iterInterrupts (envs (0 + j)) ((targets.take k).getD j []) =
                false := by
            intro j hj
            have hjk : j < k := by
              have := List.length_take_le k targets
              omega
            rw [getD_take_of_lt hjk]
            simpa using hpre' j hjk
          have htr := counts_eq_traceAll envs (targets.take k) 0 hpreT p
          have hmx := scan_leaves_mutex (envs k) (targets.getD k [])
          have hor := reachesCreate_eq_or (envs k) (targets.getD k [])
          have htl := intr_tail_counts (envs k) (targets.getD k []) k p
          rw [List.count_append, List.count_append, List.count_append,
            List.count_append, htr, count_created_iterTrace,
            count_deleted_iterTrace, htl.1, htl.2]
          by_cases hp : p = k
          · rw [hp]
            by_cases hrs : reachesScan (envs k) (targets.getD k []) = true
            · have hrc : reachesCreate (envs k) (targets.getD k []) = true := by
                rw [hor, hrs]
                exact Bool.true_or _
              have hnlt : ¬(leavesTemp (envs k) (targets.getD k []) = true ∧
                  k = k) := fun h => hmx ⟨hrs, h.1⟩
              rw [if_pos ⟨hrs, rfl⟩, if_neg hnlt, if_pos ⟨hrc, rfl⟩]
            · have hrsf : reachesScan (envs k) (targets.getD k []) = false :=
                Bool.not_eq_true _ |>.mp hrs
              have hnrs : ¬(reachesScan (envs k) (targets.getD k []) = true ∧
                  k = k) := fun h => hrs h.1
              by_cases hlt : leavesTemp (envs k) (targets.getD k []) = true
              · have hrc : reachesCreate (envs k) (targets.getD k []) = true := by
                  rw [hor, hrsf, hlt]
                  rfl
                rw [if_neg hnrs, if_pos ⟨hlt, rfl⟩, if_pos ⟨hrc, rfl⟩]
              · have hltf : leavesTemp (envs k) (targets.getD k []) = false :=
                  Bool.not_eq_true _ |>.mp hlt
                have hrcf : reachesCreate (envs k) (targets.getD k []) = false := by
                  rw [hor, hrsf, hltf]
                  rfl
                have hnlt : ¬(leavesTemp (envs k) (targets.getD k []) = true ∧
                    k = k) := fun h => hlt h.1
                have hnrc : ¬(reachesCreate (envs k) (targets.getD k []) = true ∧
                    k = k) := fun h => by
                  rw [hrcf] at h
                  exact Bool.false_ne_true h.1
                rw [if_neg hnrs, if_neg hnlt, if_neg hnrc]
          · have hnp : ∀ (b : Bool), ¬(b = true ∧ p = k) := fun b h => hp h.2
            rw [if_neg (hnp _), if_neg (hnp _), if_neg (hnp _)]

/-- Witness for C2: a one-target run with a completing scan, plus a
concrete no-op deletion of an absent file. -/
theorem claim_C2_witness :
    ([] : List Nat) = [] ∧
    (process_bulk_scan (fun _ => ⟨true, TempB.ok, ScanB.completes 0 []⟩)
      (strL "x") [strL "a:1"]).fs = [] ∧
    ((process_bulk_scan (fun _ => ⟨true, TempB.ok, ScanB.completes 0 []⟩)
      (strL "x") [strL "a:1"]).log).count (Event.deleted 0) =
      ((process_bulk_scan (fun _ => ⟨true, TempB.ok, ScanB.completes 0 []⟩)
        (strL "x") [strL "a:1"]).log).count (Event.created 0) ∧
    unlinkIfExists 3 [1, 2] = [1, 2] :=
  ⟨(claim_C2 (fun _ => ⟨true, TempB.ok, ScanB.completes 0 []⟩)
      (strL "x") [strL "a:1"]).1 0 [] (by decide),
   (claim_C2 (fun _ => ⟨true, TempB.ok, ScanB.completes 0 []⟩)
      (strL "x") [strL "a:1"]).2.1,
   (claim_C2 (fun _ => ⟨true, TempB.ok, ScanB.completes 0 []⟩)
      (strL "x") [strL "a:1"]).2.2.1 0,
   (claim_C2 (fun _ => ⟨true, TempB.ok, ScanB.completes 0 []⟩)
      (strL "x") [strL "a:1"]).2.2.2 3 [1, 2] (by decide)⟩

end SBH
